import Mathlib

/-!
Verification of the Kanban GraphQL backend (`src/graphql/resolvers/index.ts`,
`src/auth/guards.ts`): a shallow embedding of its data model (prisma tables as
lists of rows), its authorization guards, and the mutations relevant to the
ordered-collection invariant, audit logging, invitations and task labels.

Ids are `Nat` (the code uses opaque cuid strings; only equality is used).
Timestamps and the opaque `details` JSON payload of activity rows are not
observable by any claim and are omitted from the row model.  JavaScript's
`String.prototype.trim` / `toLowerCase` are embedded as executable functions
over the character list (`strTrim` / `strLower`).  Each resolver throws
`GraphQLError`s before performing its first write, so a mutation is modelled
as `KState → Except Err KState`: an error result leaves the state unchanged.
-/

namespace Kanban

/-- JavaScript `String.prototype.trim` (strip leading/trailing whitespace). -/
def strTrim (s : String) : String :=
  ⟨((s.data.dropWhile Char.isWhitespace).reverse.dropWhile Char.isWhitespace).reverse⟩

/-- ASCII lower-casing of one character. -/
def charLower (c : Char) : Char :=
  if 'A' ≤ c && c ≤ 'Z' then Char.ofNat (c.toNat + 32) else c

/-- JavaScript `String.prototype.toLowerCase` (the emails in play are ASCII). -/
def strLower (s : String) : String :=
  ⟨s.data.map charLower⟩

/-- `x?.trim() || null` applied to an optional string. -/
def normOptStr : Option String → Option String
  | none => none
  | some d => if strTrim d = "" then none else some (strTrim d)

/-- prisma enum `Role`. -/
inductive Role where
  | ADMIN
  | USER
deriving DecidableEq

/-- prisma enum `ProjectRole`. -/
inductive ProjectRole where
  | OWNER
  | MEMBER
deriving DecidableEq

/-- prisma enum `TaskStatus`. -/
inductive TaskStatus where
  | TODO
  | IN_PROGRESS
  | DONE
  | ARCHIVED
deriving DecidableEq

/-- prisma enum `InvitationStatus`. -/
inductive InvitationStatus where
  | PENDING
  | ACCEPTED
  | REVOKED
deriving DecidableEq

/-- The error kinds thrown by `src/errors.ts`. -/
inductive Err where
  | unauthenticated
  | forbidden
  | badInput
  | notFound
deriving DecidableEq

/-- The actor resolved from the JWT (`AuthUser` in `src/context.ts`). -/
structure AuthUser where
  id : Nat
  role : Role
deriving DecidableEq

/-- The request context: `ctx.user` is `null` when no valid token was sent. -/
structure Ctx where
  user : Option AuthUser
deriving DecidableEq

/-- A row of the `User` table (fields used by the modelled mutations). -/
structure UserRow where
  id : Nat
  email : String
  role : Role
deriving DecidableEq

/-- A row of the `Column` table. -/
structure Column where
  id : Nat
  projectId : Nat
  title : String
  position : Nat
deriving DecidableEq

/-- A row of the `Task` table. -/
structure Task where
  id : Nat
  columnId : Nat
  title : String
  description : Option String
  dueDate : Option Nat
  status : TaskStatus
  creatorId : Nat
  assigneeId : Option Nat
  position : Nat
deriving DecidableEq

/-- A row of the `ProjectMember` table. -/
structure ProjectMember where
  projectId : Nat
  userId : Nat
  projectRole : ProjectRole
deriving DecidableEq

/-- A row of the `Label` table. -/
structure Label where
  id : Nat
  projectId : Nat
  name : String
deriving DecidableEq

/-- A row of the `TaskLabel` link table. -/
structure TaskLabel where
  taskId : Nat
  labelId : Nat
deriving DecidableEq

/-- A row of the `Invitation` table. -/
structure Invitation where
  token : String
  projectId : Nat
  email : String
  status : InvitationStatus
deriving DecidableEq

/-- A row of the `Comment` table. -/
structure Comment where
  id : Nat
  taskId : Nat
  authorId : Nat
  content : String
deriving DecidableEq

/-- A row of the `ActivityLog` table (the free-form `details` payload and the
timestamp are opaque to every claim and omitted). -/
structure ActivityRow where
  action : String
  actorId : Nat
  projectId : Nat
  taskId : Option Nat
deriving DecidableEq

/-- The database.  Activity rows are kept most-recent-first (the API reads the
log ordered by `createdAt` descending); a mutation prepends its row.
`nextId` supplies fresh ids for created rows. -/
structure KState where
  users : List UserRow
  columns : List Column
  tasks : List Task
  members : List ProjectMember
  labels : List Label
  taskLabels : List TaskLabel
  invitations : List Invitation
  comments : List Comment
  activity : List ActivityRow
  nextId : Nat
deriving DecidableEq

/-- `prisma.projectMember.findUnique({ where: { projectId_userId } })`. -/
def findMembership (s : KState) (projectId userId : Nat) : Option ProjectMember :=
  s.members.find? (fun m => m.projectId == projectId && m.userId == userId)

/-- `prisma.column.findUnique({ where: { id } })`. -/
def findColumn (s : KState) (columnId : Nat) : Option Column :=
  s.columns.find? (fun c => c.id == columnId)

/-- `prisma.task.findUnique({ where: { id } })`. -/
def findTask (s : KState) (taskId : Nat) : Option Task :=
  s.tasks.find? (fun t => t.id == taskId)

/-- `prisma.label.findUnique({ where: { id } })`. -/
def findLabel (s : KState) (labelId : Nat) : Option Label :=
  s.labels.find? (fun l => l.id == labelId)

/-- `prisma.taskLabel.findUnique({ where: { taskId_labelId } })`. -/
def findTaskLabel (s : KState) (taskId labelId : Nat) : Option TaskLabel :=
  s.taskLabels.find? (fun tl => tl.taskId == taskId && tl.labelId == labelId)

/-- `prisma.invitation.findUnique({ where: { token } })`. -/
def findInvitation (s : KState) (token : String) : Option Invitation :=
  s.invitations.find? (fun i => i.token == token)

/-- `prisma.user.findUnique({ where: { id } })`. -/
def findUserRow (s : KState) (userId : Nat) : Option UserRow :=
  s.users.find? (fun u => u.id == userId)

/-- `ctx.user!.id`: the resolvers read this only after a guard has ensured the
actor is present, so the `none` branch is never reached on a success path. -/
def ctxUserId (ctx : Ctx) : Nat :=
  match ctx.user with
  | some u => u.id
  | none => 0

/-- `ctx.user!.role`, same proviso as `ctxUserId`. -/
def ctxRole (ctx : Ctx) : Role :=
  match ctx.user with
  | some u => u.role
  | none => Role.USER

/-- `requireAuth` from `src/auth/guards.ts`. -/
def requireAuth (ctx : Ctx) : Except Err Unit :=
  match ctx.user with
  | none => .error .unauthenticated
  | some _ => .ok ()

/-- `requireProjectMember` from `src/auth/guards.ts`: ADMIN short-circuits,
otherwise the `(projectId, userId)` membership row must exist. -/
def requireProjectMember (s : KState) (ctx : Ctx) (projectId : Nat) : Except Err Unit :=
  match ctx.user with
  | none => .error .unauthenticated
  | some u =>
    if u.role = Role.ADMIN then .ok ()
    else if (findMembership s projectId u.id).isSome then .ok ()
    else .error .forbidden

/-- `requireProjectOwnerOrAdmin` from `src/auth/guards.ts`. -/
def requireProjectOwnerOrAdmin (s : KState) (ctx : Ctx) (projectId : Nat) : Except Err Unit :=
  match ctx.user with
  | none => .error .unauthenticated
  | some u =>
    if u.role = Role.ADMIN then .ok ()
    else
      match findMembership s projectId u.id with
      | none => .error .forbidden
      | some m => if m.projectRole = ProjectRole.OWNER then .ok () else .error .forbidden

/-- `getProjectIdByColumnId` from `src/auth/guards.ts`. -/
def getProjectIdByColumnId (s : KState) (columnId : Nat) : Except Err Nat :=
  match findColumn s columnId with
  | none => .error .notFound
  | some c => .ok c.projectId

/-- `getProjectIdByTaskId` from `src/auth/guards.ts`: the task is looked up
with its column; a missing task is `NotFound`.  (A task's column always exists
by foreign-key integrity; the dangling case is mapped to `NotFound` too.) -/
def getProjectIdByTaskId (s : KState) (taskId : Nat) : Except Err Nat :=
  match findTask s taskId with
  | none => .error .notFound
  | some t =>
    match findColumn s t.columnId with
    | none => .error .notFound
    | some c => .ok c.projectId

/-- `Mutation.createColumn`: guard, validation, shift-right of the columns of
the project at positions ≥ P (`updateMany` with `increment: 1`), creation at
P, audit append.  Only `Number.isInteger(position) && position ≥ 1` is
validated. -/
def createColumn (s : KState) (ctx : Ctx) (projectId : Nat) (title : String)
    (position : Int) : Except Err KState :=
  match requireProjectOwnerOrAdmin s ctx projectId with
  | .error e => .error e
  | .ok _ =>
    if (strTrim title).length < 1 then .error .badInput
    else if position < 1 then .error .badInput
    else
      let P := position.toNat
      let cols := s.columns.map (fun c =>
        if c.projectId == projectId && P ≤ c.position
        then { c with position := c.position + 1 } else c)
      let newCol : Column :=
        { id := s.nextId, projectId := projectId, title := strTrim title, position := P }
      .ok { s with
              columns := cols ++ [newCol],
              nextId := s.nextId + 1,
              activity := { action := "COLUMN_CREATED", actorId := ctxUserId ctx,
                            projectId := projectId, taskId := none } :: s.activity }

/-- `Mutation.createTask`: resolve the column's project, membership guard,
title validation, assignee membership check, tail position
(`findFirst orderBy position desc` + 1, i.e. max + 1, 0 for an empty column),
creation, audit append. -/
def createTask (s : KState) (ctx : Ctx) (columnId : Nat) (title : String)
    (description : Option String) (dueDate : Option Nat) (assigneeId : Option Nat) :
    Except Err KState :=
  match getProjectIdByColumnId s columnId with
  | .error e => .error e
  | .ok projectId =>
    match requireProjectMember s ctx projectId with
    | .error e => .error e
    | .ok _ =>
      if (strTrim title).length < 1 then .error .badInput
      else if (match assigneeId with
               | some a => (findMembership s projectId a).isNone && !(ctxRole ctx = Role.ADMIN)
               | none => false)
      then .error .forbidden
      else
        let last := ((s.tasks.filter (fun t => t.columnId == columnId)).map
          (fun t => t.position)).foldr max 0
        let task : Task :=
          { id := s.nextId, columnId := columnId, title := strTrim title,
            description := normOptStr description, dueDate := dueDate,
            status := TaskStatus.TODO, creatorId := ctxUserId ctx,
            assigneeId := assigneeId, position := last + 1 }
        .ok { s with
                tasks := s.tasks ++ [task],
                nextId := s.nextId + 1,
                activity := { action := "TASK_CREATED", actorId := ctxUserId ctx,
                              projectId := projectId, taskId := some task.id } :: s.activity }

/-- The patch carried by `Mutation.updateTask` (`undefined` = field absent). -/
structure UpdateTaskInput where
  title : Option String
  description : Option (Option String)
  dueDate : Option (Option Nat)
  status : Option TaskStatus
deriving DecidableEq

/-- Apply the `data` object assembled by `Mutation.updateTask` to a task. -/
def applyTaskPatch (input : UpdateTaskInput) (t : Task) : Task :=
  let t := match input.title with
           | some ti => { t with title := strTrim ti }
           | none => t
  let t := match input.description with
           | some d => { t with description := normOptStr d }
           | none => t
  let t := match input.dueDate with
           | some d => { t with dueDate := d }
           | none => t
  match input.status with
  | some st => { t with status := st }
  | none => t

/-- `Mutation.updateTask`. -/
def updateTask (s : KState) (ctx : Ctx) (taskId : Nat) (input : UpdateTaskInput) :
    Except Err KState :=
  match getProjectIdByTaskId s taskId with
  | .error e => .error e
  | .ok projectId =>
    match requireProjectMember s ctx projectId with
    | .error e => .error e
    | .ok _ =>
      match findTask s taskId with
      | none => .error .notFound
      | some _ =>
        if (match input.title with
            | some ti => decide ((strTrim ti).length < 1)
            | none => false)
        then .error .badInput
        else
          .ok { s with
                  tasks := s.tasks.map (fun t =>
                    if t.id == taskId then applyTaskPatch input t else t),
                  activity := { action := "TASK_UPDATED", actorId := ctxUserId ctx,
                                projectId := projectId, taskId := some taskId } :: s.activity }

/-- The `updateMany` shift of `Mutation.moveTask`: every task of the target
column at position ≥ P moves right by one. -/
def shiftTargetTasks (toColumnId P : Nat) (ts : List Task) : List Task :=
  ts.map (fun t =>
    if t.columnId == toColumnId && P ≤ t.position
    then { t with position := t.position + 1 } else t)

/-- The `update` of `Mutation.moveTask`: the moved task is written into the
target column at position P. -/
def setTaskColumnPos (taskId toColumnId P : Nat) (ts : List Task) : List Task :=
  ts.map (fun t =>
    if t.id == taskId then { t with columnId := toColumnId, position := P } else t)

/-- Insertion into a list sorted by ascending position. -/
def insertSorted (t : Task) : List Task → List Task
  | [] => [t]
  | u :: us => if t.position ≤ u.position then t :: u :: us else u :: insertSorted t us

/-- `findMany({ orderBy: { position: "asc" } })`: sort by ascending position. -/
def sortByPos : List Task → List Task
  | [] => []
  | t :: ts => insertSorted t (sortByPos ts)

/-- The compaction writes of `Mutation.moveTask`: the k-th task (0-based) of
the sorted source column is updated to position k + 1. -/
def renumberUpdates : Nat → List Task → List (Nat × Nat)
  | _, [] => []
  | k, t :: ts => (t.id, k) :: renumberUpdates (k + 1) ts

/-- One `prisma.task.update({ where: { id }, data: { position } })`. -/
def setPos (i p : Nat) (ts : List Task) : List Task :=
  ts.map (fun t => if t.id == i then { t with position := p } else t)

/-- Apply a batch of position updates in order. -/
def applyPosUpdates : List (Nat × Nat) → List Task → List Task
  | [], ts => ts
  | (i, p) :: ups, ts => applyPosUpdates ups (setPos i p ts)

/-- `Mutation.moveTask`: resolve both projects (`NotFound` on a missing id),
reject a cross-project move with `Forbidden`, membership guard, validate
`toPosition ≥ 1` (no upper bound), then: shift the target column right at
positions ≥ P, write the moved task at (target, P), and finally renumber the
task's original column in ascending position order (against the already
mutated state), and append the audit row. -/
def moveTask (s : KState) (ctx : Ctx) (taskId toColumnId : Nat) (toPosition : Int) :
    Except Err KState :=
  match getProjectIdByTaskId s taskId with
  | .error e => .error e
  | .ok fromProjectId =>
    match getProjectIdByColumnId s toColumnId with
    | .error e => .error e
    | .ok toProjectId =>
      if fromProjectId ≠ toProjectId then .error .forbidden
      else
        match requireProjectMember s ctx fromProjectId with
        | .error e => .error e
        | .ok _ =>
          if toPosition < 1 then .error .badInput
          else
            match findTask s taskId with
            | none => .error .notFound
            | some task =>
              let P := toPosition.toNat
              let ts1 := shiftTargetTasks toColumnId P s.tasks
              let ts2 := setTaskColumnPos taskId toColumnId P ts1
              let sourceTasks := sortByPos (ts2.filter (fun t => t.columnId == task.columnId))
              let ts3 := applyPosUpdates (renumberUpdates 1 sourceTasks) ts2
              .ok { s with
                      tasks := ts3,
                      activity := { action := "TASK_MOVED", actorId := ctxUserId ctx,
                                    projectId := fromProjectId,
                                    taskId := some taskId } :: s.activity }

/-- `Mutation.assignTask`. -/
def assignTask (s : KState) (ctx : Ctx) (taskId : Nat) (assigneeId : Option Nat) :
    Except Err KState :=
  match getProjectIdByTaskId s taskId with
  | .error e => .error e
  | .ok projectId =>
    match requireProjectMember s ctx projectId with
    | .error e => .error e
    | .ok _ =>
      if (match assigneeId with
          | some a => (findMembership s projectId a).isNone && !(ctxRole ctx = Role.ADMIN)
          | none => false)
      then .error .forbidden
      else
        .ok { s with
                tasks := s.tasks.map (fun t =>
                  if t.id == taskId then { t with assigneeId := assigneeId } else t),
                activity := { action := "TASK_ASSIGNED", actorId := ctxUserId ctx,
                              projectId := projectId, taskId := some taskId } :: s.activity }

/-- `Mutation.commentTask`: note that `requireAuth` runs before the task id is
resolved. -/
def commentTask (s : KState) (ctx : Ctx) (taskId : Nat) (content : String) :
    Except Err KState :=
  match requireAuth ctx with
  | .error e => .error e
  | .ok _ =>
    match getProjectIdByTaskId s taskId with
    | .error e => .error e
    | .ok projectId =>
      match requireProjectMember s ctx projectId with
      | .error e => .error e
      | .ok _ =>
        if (strTrim content).length < 1 then .error .badInput
        else
          .ok { s with
                  comments := s.comments ++
                    [{ id := s.nextId, taskId := taskId, authorId := ctxUserId ctx,
                       content := strTrim content }],
                  nextId := s.nextId + 1,
                  activity := { action := "COMMENT_ADDED", actorId := ctxUserId ctx,
                                projectId := projectId, taskId := some taskId } :: s.activity }

/-- `Mutation.acceptInvite`: only a PENDING invitation whose email matches the
actor's (case-insensitively, ADMIN exempt) can be accepted; the membership is
upserted (no-op update when the row exists), the invitation becomes ACCEPTED,
and the audit row is appended. -/
def acceptInvite (s : KState) (ctx : Ctx) (token : String) : Except Err KState :=
  match requireAuth ctx with
  | .error e => .error e
  | .ok _ =>
    match findInvitation s token with
    | none => .error .notFound
    | some invite =>
      if invite.status ≠ InvitationStatus.PENDING then .error .badInput
      else
        match findUserRow s (ctxUserId ctx) with
        | none => .error .unauthenticated
        | some user =>
          if strLower user.email ≠ strLower invite.email ∧ ctxRole ctx ≠ Role.ADMIN
          then .error .forbidden
          else
            let ms :=
              if (findMembership s invite.projectId (ctxUserId ctx)).isSome then s.members
              else s.members ++
                [{ projectId := invite.projectId, userId := ctxUserId ctx,
                   projectRole := ProjectRole.MEMBER }]
            .ok { s with
                    members := ms,
                    invitations := s.invitations.map (fun i =>
                      if i.token == token
                      then { i with status := InvitationStatus.ACCEPTED } else i),
                    activity := { action := "INVITE_ACCEPTED", actorId := ctxUserId ctx,
                                  projectId := invite.projectId, taskId := none } :: s.activity }

/-- `Mutation.addLabelToTask`: membership guard, the label must exist and
belong to the task's project, then a `taskLabel` upsert (no-op when the link
exists) and the audit append.  The final task re-read cannot miss because the
id already resolved. -/
def addLabelToTask (s : KState) (ctx : Ctx) (taskId labelId : Nat) : Except Err KState :=
  match getProjectIdByTaskId s taskId with
  | .error e => .error e
  | .ok projectId =>
    match requireProjectMember s ctx projectId with
    | .error e => .error e
    | .ok _ =>
      match findLabel s labelId with
      | none => .error .notFound
      | some label =>
        if label.projectId ≠ projectId then .error .forbidden
        else
          let tls :=
            if (findTaskLabel s taskId labelId).isSome then s.taskLabels
            else s.taskLabels ++ [{ taskId := taskId, labelId := labelId }]
          let s' := { s with
                        taskLabels := tls,
                        activity := { action := "LABEL_ADDED_TO_TASK",
                                      actorId := ctxUserId ctx, projectId := projectId,
                                      taskId := some taskId } :: s.activity }
          match findTask s' taskId with
          | none => .error .notFound
          | some _ => .ok s'

/-- `Mutation.removeLabelFromTask`: as `addLabelToTask`, with a `deleteMany`
of the link (which may match nothing). -/
def removeLabelFromTask (s : KState) (ctx : Ctx) (taskId labelId : Nat) :
    Except Err KState :=
  match getProjectIdByTaskId s taskId with
  | .error e => .error e
  | .ok projectId =>
    match requireProjectMember s ctx projectId with
    | .error e => .error e
    | .ok _ =>
      match findLabel s labelId with
      | none => .error .notFound
      | some label =>
        if label.projectId ≠ projectId then .error .forbidden
        else
          let s' := { s with
                        taskLabels := s.taskLabels.filter (fun tl =>
                          !(tl.taskId == taskId && tl.labelId == labelId)),
                        activity := { action := "LABEL_REMOVED_FROM_TASK",
                                      actorId := ctxUserId ctx, projectId := projectId,
                                      taskId := some taskId } :: s.activity }
          match findTask s' taskId with
          | none => .error .notFound
          | some _ => .ok s'

/-- The modelled mutations of the API surface. -/
inductive Op where
  | createColumn (projectId : Nat) (title : String) (position : Int)
  | createTask (columnId : Nat) (title : String) (description : Option String)
      (dueDate : Option Nat) (assigneeId : Option Nat)
  | updateTask (taskId : Nat) (input : UpdateTaskInput)
  | moveTask (taskId : Nat) (toColumnId : Nat) (toPosition : Int)
  | assignTask (taskId : Nat) (assigneeId : Option Nat)
  | commentTask (taskId : Nat) (content : String)
  | acceptInvite (token : String)
  | addLabelToTask (taskId : Nat) (labelId : Nat)
  | removeLabelFromTask (taskId : Nat) (labelId : Nat)
deriving DecidableEq

/-- Dispatch a modelled mutation. -/
def applyOp (op : Op) (ctx : Ctx) (s : KState) : Except Err KState :=
  match op with
  | .createColumn projectId title position => createColumn s ctx projectId title position
  | .createTask columnId title d dd a => createTask s ctx columnId title d dd a
  | .updateTask taskId input => updateTask s ctx taskId input
  | .moveTask taskId toColumnId toPosition => moveTask s ctx taskId toColumnId toPosition
  | .assignTask taskId assigneeId => assignTask s ctx taskId assigneeId
  | .commentTask taskId content => commentTask s ctx taskId content
  | .acceptInvite token => acceptInvite s ctx token
  | .addLabelToTask taskId labelId => addLabelToTask s ctx taskId labelId
  | .removeLabelFromTask taskId labelId => removeLabelFromTask s ctx taskId labelId

/-- The audit action tag each mutation writes. -/
def actionTag : Op → String
  | .createColumn .. => "COLUMN_CREATED"
  | .createTask .. => "TASK_CREATED"
  | .updateTask .. => "TASK_UPDATED"
  | .moveTask .. => "TASK_MOVED"
  | .assignTask .. => "TASK_ASSIGNED"
  | .commentTask .. => "COMMENT_ADDED"
  | .acceptInvite .. => "INVITE_ACCEPTED"
  | .addLabelToTask .. => "LABEL_ADDED_TO_TASK"
  | .removeLabelFromTask .. => "LABEL_REMOVED_FROM_TASK"

/-- The position values of a project's columns. -/
def colPositions (s : KState) (p : Nat) : List Nat :=
  (s.columns.filter (fun c => c.projectId == p)).map (fun c => c.position)

/-- The position values of a column's tasks. -/
def taskPositions (s : KState) (c : Nat) : List Nat :=
  (s.tasks.filter (fun t => t.columnId == c)).map (fun t => t.position)

/-- A position multiset is exactly {1..count}: no gaps, no duplicates. -/
def Contiguous (l : List Nat) : Prop :=
  l.Perm (List.range' 1 l.length)

instance (l : List Nat) : Decidable (Contiguous l) :=
  List.decidablePerm l (List.range' 1 l.length)

/-- The spec's quiescent-state invariant, together with the well-formedness
facts the store's constraints provide (unique ids below the id supply, unique
(project, user) membership pairs, tasks referencing existing columns). -/
def Valid (s : KState) : Prop :=
  (∀ p ∈ s.columns.map (fun c => c.projectId), Contiguous (colPositions s p)) ∧
  (∀ c ∈ s.tasks.map (fun t => t.columnId), Contiguous (taskPositions s c)) ∧
  (s.tasks.map (fun t => t.id)).Nodup ∧
  (∀ t ∈ s.tasks, ∃ c ∈ s.columns, c.id = t.columnId) ∧
  (∀ t ∈ s.tasks, t.id < s.nextId) ∧
  (∀ c ∈ s.columns, c.id < s.nextId) ∧
  (s.members.map (fun m => (m.projectId, m.userId))).Nodup

instance (s : KState) : Decidable (Valid s) := by
  unfold Valid Contiguous
  infer_instance

/-- The ordering part of the invariant: every scope's positions are exactly
{1..count}. -/
def PosInvariant (s : KState) : Prop :=
  (∀ p ∈ s.columns.map (fun c => c.projectId), Contiguous (colPositions s p)) ∧
  (∀ c ∈ s.tasks.map (fun t => t.columnId), Contiguous (taskPositions s c))

/-- One successful ordered-collection operation whose position argument is
within 1..count+1 of its target scope (`createTask` always inserts at the
tail and needs no bound). -/
inductive OCStep : KState → KState → Prop
  | createColumn (s s' : KState) (ctx : Ctx) (projectId : Nat) (title : String)
      (position : Int)
      (hrange : position.toNat ≤ (colPositions s projectId).length + 1)
      (hok : applyOp (.createColumn projectId title position) ctx s = .ok s') :
      OCStep s s'
  | createTask (s s' : KState) (ctx : Ctx) (columnId : Nat) (title : String)
      (d : Option String) (dd : Option Nat) (a : Option Nat)
      (hok : applyOp (.createTask columnId title d dd a) ctx s = .ok s') :
      OCStep s s'
  | moveTask (s s' : KState) (ctx : Ctx) (taskId toColumnId : Nat) (toPosition : Int)
      (hrange : toPosition.toNat ≤ (taskPositions s toColumnId).length + 1)
      (hok : applyOp (.moveTask taskId toColumnId toPosition) ctx s = .ok s') :
      OCStep s s'

/-- Reachability by a sequence of in-range ordered-collection operations. -/
inductive OCReach : KState → KState → Prop
  | refl (s : KState) : OCReach s s
  | tail (s s' s'' : KState) : OCReach s s' → OCStep s' s'' → OCReach s s''

/-- The net effect of a batch of position updates on one task (the task's id
never changes, so the batch acts pointwise). -/
def applyUps (ups : List (Nat × Nat)) (t : Task) : Task :=
  ups.foldl (fun t ip => if t.id == ip.1 then { t with position := ip.2 } else t) t

/-- The project each member-gated mutation resolves its id arguments to
(`none` for mutations gated by a different guard, or when a resolution
fails). -/
def memberGateProject (s : KState) : Op → Option Nat
  | .createTask columnId _ _ _ _ => (getProjectIdByColumnId s columnId).toOption
  | .updateTask taskId _ => (getProjectIdByTaskId s taskId).toOption
  | .moveTask taskId toColumnId _ =>
      match getProjectIdByTaskId s taskId, getProjectIdByColumnId s toColumnId with
      | .ok fp, .ok _ => some fp
      | _, _ => none
  | .assignTask taskId _ => (getProjectIdByTaskId s taskId).toOption
  | .commentTask taskId _ => (getProjectIdByTaskId s taskId).toOption
  | .addLabelToTask taskId _ => (getProjectIdByTaskId s taskId).toOption
  | .removeLabelFromTask taskId _ => (getProjectIdByTaskId s taskId).toOption
  | .createColumn _ _ _ => none
  | .acceptInvite _ => none

/-- The labels attached to a task, as the list of link rows' label ids. -/
def attachedLabelIds (s : KState) (taskId : Nat) : List Nat :=
  (s.taskLabels.filter (fun tl => tl.taskId == taskId)).map (fun tl => tl.labelId)

/-- Extract the state of a successful result (defaulting to `dflt`). -/
def okState (r : Except Err KState) (dflt : KState) : KState :=
  match r with
  | .ok s => s
  | .error _ => dflt

/-- Fixture: the project owner (user 1) as the acting context. -/
def ctxOwner : Ctx := ⟨some ⟨1, Role.USER⟩⟩

/-- Fixture: a global ADMIN (user 2) as the acting context. -/
def ctxAdmin : Ctx := ⟨some ⟨2, Role.ADMIN⟩⟩

/-- Fixture: the invited member (user 3) as the acting context. -/
def ctxMem : Ctx := ⟨some ⟨3, Role.USER⟩⟩

/-- Fixture: an unauthenticated context. -/
def ctxNone : Ctx := ⟨none⟩

/-- Fixture: an authenticated outsider (user 4, member of no project). -/
def ctxOutsider : Ctx := ⟨some ⟨4, Role.USER⟩⟩

/-- Fixture state: project 100 (columns 10, 11; tasks 30, 31 in column 10;
label 40; a pending invitation for user 3) and project 200 (column 20),
both owned by user 1. -/
def s0 : KState :=
  { users := [⟨1, "owner@x.com", Role.USER⟩, ⟨2, "admin@x.com", Role.ADMIN⟩,
              ⟨3, "mem@x.com", Role.USER⟩, ⟨4, "out@x.com", Role.USER⟩],
    columns := [⟨10, 100, "To Do", 1⟩, ⟨11, 100, "In Progress", 2⟩, ⟨20, 200, "To Do", 1⟩],
    tasks := [⟨30, 10, "A", none, none, TaskStatus.TODO, 1, none, 1⟩,
              ⟨31, 10, "B", none, none, TaskStatus.TODO, 1, none, 2⟩],
    members := [⟨100, 1, ProjectRole.OWNER⟩, ⟨200, 1, ProjectRole.OWNER⟩,
                ⟨100, 3, ProjectRole.MEMBER⟩],
    labels := [⟨40, 100, "bug"⟩],
    taskLabels := [],
    invitations := [⟨"tok1", 100, "mem@x.com", InvitationStatus.PENDING⟩,
                    ⟨"tok2", 100, "owner@x.com", InvitationStatus.PENDING⟩],
    comments := [],
    activity := [],
    nextId := 50 }

/-- Fixture: `s0` after the owner attaches label 40 to task 30. -/
def s0L : KState := okState (applyOp (.addLabelToTask 30 40) ctxOwner s0) s0

/-- Fixture: `s0L` after the owner attaches label 40 to task 30 again. -/
def s0L2 : KState := okState (applyOp (.addLabelToTask 30 40) ctxOwner s0L) s0L

/-- Fixture: `s0` after user 3 accepts the pending invitation `tok1`. -/
def s0A : KState := okState (applyOp (.acceptInvite "tok1") ctxMem s0) s0

/-- Fixture: `s0` after the owner (already an OWNER member of project 100)
accepts the invitation `tok2` addressed to their own email. -/
def s0B : KState := okState (applyOp (.acceptInvite "tok2") ctxOwner s0) s0

/-- Fixture: `s0` after the owner inserts a column at position 2 of
project 100. -/
def s0C : KState := okState (applyOp (.createColumn 100 "Review" 2) ctxOwner s0) s0

lemma getProjectIdByTaskId_of_none {s : KState} {taskId : Nat}
    (h : findTask s taskId = none) :
    getProjectIdByTaskId s taskId = .error .notFound := by
  rw [getProjectIdByTaskId, h]

lemma getProjectIdByColumnId_of_none {s : KState} {columnId : Nat}
    (h : findColumn s columnId = none) :
    getProjectIdByColumnId s columnId = .error .notFound := by
  rw [getProjectIdByColumnId, h]

lemma getProjectIdByTaskId_ok_inv {s : KState} {taskId p : Nat}
    (h : getProjectIdByTaskId s taskId = .ok p) :
    ∃ t c, findTask s taskId = some t ∧ findColumn s t.columnId = some c ∧
      c.projectId = p := by
  cases hT : findTask s taskId with
  | none => simp [getProjectIdByTaskId, hT] at h
  | some t =>
    cases hC : findColumn s t.columnId with
    | none => simp [getProjectIdByTaskId, hT, hC] at h
    | some c =>
      simp only [getProjectIdByTaskId, hT, hC, Except.ok.injEq] at h
      exact ⟨t, c, rfl, hC, h⟩

lemma getProjectIdByColumnId_ok_inv {s : KState} {columnId p : Nat}
    (h : getProjectIdByColumnId s columnId = .ok p) :
    ∃ c, findColumn s columnId = some c ∧ c.projectId = p := by
  cases hC : findColumn s columnId with
  | none => simp [getProjectIdByColumnId, hC] at h
  | some c =>
    simp only [getProjectIdByColumnId, hC, Except.ok.injEq] at h
    exact ⟨c, rfl, h⟩

/-- C5: a `moveTask` whose target column belongs to a different project than
the task's current column fails with `Forbidden` for every actor (there is no
ADMIN bypass for this check), and — since the check precedes every write — it
leaves the whole state, in particular both columns' position sequences,
unchanged. -/
theorem moveTask_cross_project_forbidden (s : KState) (ctx : Ctx)
    (taskId toColumnId : Nat) (toPosition : Int) (fp tp : Nat)
    (hf : getProjectIdByTaskId s taskId = .ok fp)
    (ht : getProjectIdByColumnId s toColumnId = .ok tp)
    (hne : fp ≠ tp) :
    applyOp (.moveTask taskId toColumnId toPosition) ctx s = .error .forbidden := by
  simp [applyOp, moveTask, hf, ht, hne]

/-- C5 witness: even the common owner of both projects (and a global ADMIN)
gets `Forbidden` when moving task 30 (project 100) to column 20 (project
200). -/
theorem moveTask_cross_project_forbidden_witness :
    applyOp (.moveTask 30 20 1) ctxAdmin s0 = .error .forbidden :=
  moveTask_cross_project_forbidden s0 ctxAdmin 30 20 1 100 200 rfl rfl (by decide)

/-- C6: `requireProjectMember` lets any ADMIN through regardless of
membership; a non-ADMIN fails with `Forbidden` exactly when the
(projectId, actor) membership row is absent; consequently every member-gated
mutation whose ids resolve returns `Forbidden` to a non-ADMIN non-member. -/
theorem requireProjectMember_gate (s : KState) (ctx : Ctx) (u : AuthUser)
    (projectId : Nat) (hu : ctx.user = some u) :
    (u.role = Role.ADMIN → requireProjectMember s ctx projectId = .ok ()) ∧
    (u.role ≠ Role.ADMIN →
      ((requireProjectMember s ctx projectId = .error .forbidden ↔
          findMembership s projectId u.id = none) ∧
       (requireProjectMember s ctx projectId = .ok () ↔
          (findMembership s projectId u.id).isSome = true))) ∧
    (∀ (op : Op) (pid : Nat), memberGateProject s op = some pid →
      u.role ≠ Role.ADMIN → findMembership s pid u.id = none →
      applyOp op ctx s = .error .forbidden) := by
  refine ⟨?_, ?_, ?_⟩
  · intro hadm
    simp [requireProjectMember, hu, hadm]
  · intro hadm
    cases hm : findMembership s projectId u.id with
    | none => simp [requireProjectMember, hu, hadm, hm]
    | some m => simp [requireProjectMember, hu, hadm, hm]
  · intro op pid hgate hadm hm
    cases op with
    | createColumn projectId title position => simp [memberGateProject] at hgate
    | acceptInvite token => simp [memberGateProject] at hgate
    | createTask columnId title d dd a =>
      cases hres : getProjectIdByColumnId s columnId with
      | error e => rw [memberGateProject, hres] at hgate; simp [Except.toOption] at hgate
      | ok p =>
        rw [memberGateProject, hres] at hgate
        simp [Except.toOption] at hgate
        subst hgate
        simp [applyOp, createTask, hres, requireProjectMember, hu, hadm, hm]
    | updateTask taskId input =>
      cases hres : getProjectIdByTaskId s taskId with
      | error e => rw [memberGateProject, hres] at hgate; simp [Except.toOption] at hgate
      | ok p =>
        rw [memberGateProject, hres] at hgate
        simp [Except.toOption] at hgate
        subst hgate
        simp [applyOp, updateTask, hres, requireProjectMember, hu, hadm, hm]
    | moveTask taskId toColumnId toPosition =>
      cases hres : getProjectIdByTaskId s taskId with
      | error e => rw [memberGateProject, hres] at hgate; simp at hgate
      | ok p =>
        cases hres2 : getProjectIdByColumnId s toColumnId with
        | error e => rw [memberGateProject, hres, hres2] at hgate; simp at hgate
        | ok p2 =>
          rw [memberGateProject, hres, hres2] at hgate
          simp at hgate
          subst hgate
          by_cases hpp : p = p2
          · subst hpp
            simp [applyOp, moveTask, hres, hres2, requireProjectMember, hu, hadm, hm]
          · simp [applyOp, moveTask, hres, hres2, hpp]
    | assignTask taskId assigneeId =>
      cases hres : getProjectIdByTaskId s taskId with
      | error e => rw [memberGateProject, hres] at hgate; simp [Except.toOption] at hgate
      | ok p =>
        rw [memberGateProject, hres] at hgate
        simp [Except.toOption] at hgate
        subst hgate
        simp [applyOp, assignTask, hres, requireProjectMember, hu, hadm, hm]
    | commentTask taskId content =>
      cases hres : getProjectIdByTaskId s taskId with
      | error e => rw [memberGateProject, hres] at hgate; simp [Except.toOption] at hgate
      | ok p =>
        rw [memberGateProject, hres] at hgate
        simp [Except.toOption] at hgate
        subst hgate
        simp [applyOp, commentTask, requireAuth, hu, hres, requireProjectMember, hadm, hm]
    | addLabelToTask taskId labelId =>
      cases hres : getProjectIdByTaskId s taskId with
      | error e => rw [memberGateProject, hres] at hgate; simp [Except.toOption] at hgate
      | ok p =>
        rw [memberGateProject, hres] at hgate
        simp [Except.toOption] at hgate
        subst hgate
        simp [applyOp, addLabelToTask, hres, requireProjectMember, hu, hadm, hm]
    | removeLabelFromTask taskId labelId =>
      cases hres : getProjectIdByTaskId s taskId with
      | error e => rw [memberGateProject, hres] at hgate; simp [Except.toOption] at hgate
      | ok p =>
        rw [memberGateProject, hres] at hgate
        simp [Except.toOption] at hgate
        subst hgate
        simp [applyOp, removeLabelFromTask, hres, requireProjectMember, hu, hadm, hm]

/-- C6 witness: the ADMIN passes the gate on a project it is no member of;
the outsider is rejected from project 100 and its `createTask` there fails
with `Forbidden`. -/
theorem requireProjectMember_gate_witness :
    requireProjectMember s0 ctxAdmin 999 = .ok () ∧
    requireProjectMember s0 ctxOutsider 100 = .error .forbidden ∧
    applyOp (.createTask 10 "T" none none none) ctxOutsider s0 = .error .forbidden :=
  ⟨(requireProjectMember_gate s0 ctxAdmin ⟨2, Role.ADMIN⟩ 999 rfl).1 rfl,
   ((requireProjectMember_gate s0 ctxOutsider ⟨4, Role.USER⟩ 100 rfl).2.1
      (by decide)).1.mpr rfl,
   (requireProjectMember_gate s0 ctxOutsider ⟨4, Role.USER⟩ 100 rfl).2.2
      (.createTask 10 "T" none none none) 100 rfl (by decide) rfl⟩

/-- C7 (amended): for every modelled operation that takes a taskId or
columnId except `commentTask`, an id that does not resolve fails with
`NotFound` for every caller — authenticated or not, member or not — before
any authorization guard; `commentTask` alone checks authentication first, so
an unauthenticated caller gets `Unauthenticated` there, while for an
authenticated caller the unknown id still yields `NotFound` before the
membership guard. -/
theorem lookup_miss_error_order (s : KState) (ctx : Ctx) :
    (∀ columnId title d dd a, findColumn s columnId = none →
      applyOp (.createTask columnId title d dd a) ctx s = .error .notFound) ∧
    (∀ taskId input, findTask s taskId = none →
      applyOp (.updateTask taskId input) ctx s = .error .notFound) ∧
    (∀ taskId toColumnId toPosition, findTask s taskId = none →
      applyOp (.moveTask taskId toColumnId toPosition) ctx s = .error .notFound) ∧
    (∀ taskId toColumnId toPosition p,
      getProjectIdByTaskId s taskId = .ok p → findColumn s toColumnId = none →
      applyOp (.moveTask taskId toColumnId toPosition) ctx s = .error .notFound) ∧
    (∀ taskId assigneeId, findTask s taskId = none →
      applyOp (.assignTask taskId assigneeId) ctx s = .error .notFound) ∧
    (∀ taskId labelId, findTask s taskId = none →
      applyOp (.addLabelToTask taskId labelId) ctx s = .error .notFound) ∧
    (∀ taskId labelId, findTask s taskId = none →
      applyOp (.removeLabelFromTask taskId labelId) ctx s = .error .notFound) ∧
    (∀ taskId content, ctx.user = none →
      applyOp (.commentTask taskId content) ctx s = .error .unauthenticated) ∧
    (∀ taskId content u, ctx.user = some u → findTask s taskId = none →
      applyOp (.commentTask taskId content) ctx s = .error .notFound) := by
  refine ⟨?_, ?_, ?_, ?_, ?_, ?_, ?_, ?_, ?_⟩
  · intro columnId title d dd a h
    simp [applyOp, createTask, getProjectIdByColumnId_of_none h]
  · intro taskId input h
    simp [applyOp, updateTask, getProjectIdByTaskId_of_none h]
  · intro taskId toColumnId toPosition h
    simp [applyOp, moveTask, getProjectIdByTaskId_of_none h]
  · intro taskId toColumnId toPosition p hp h
    simp [applyOp, moveTask, hp, getProjectIdByColumnId_of_none h]
  · intro taskId assigneeId h
    simp [applyOp, assignTask, getProjectIdByTaskId_of_none h]
  · intro taskId labelId h
    simp [applyOp, addLabelToTask, getProjectIdByTaskId_of_none h]
  · intro taskId labelId h
    simp [applyOp, removeLabelFromTask, getProjectIdByTaskId_of_none h]
  · intro taskId content h
    simp [applyOp, commentTask, requireAuth, h]
  · intro taskId content u hu h
    simp [applyOp, commentTask, requireAuth, hu, getProjectIdByTaskId_of_none h]

/-- C7 counterexample: an unauthenticated `commentTask` call with an id that
does not resolve receives `Unauthenticated`, not the `NotFound` the claim
requires for every operation. -/
theorem commentTask_auth_before_lookup_counterexample :
    findTask s0 999 = none ∧
    applyOp (.commentTask 999 "hi") ctxNone s0 = .error .unauthenticated ∧
    Err.unauthenticated ≠ Err.notFound :=
  ⟨rfl, rfl, by decide⟩

/-- C7 witness: on the other operations an unknown id gives `NotFound` even
to an unauthenticated caller. -/
theorem lookup_miss_error_order_witness :
    applyOp (.updateTask 999 ⟨none, none, none, none⟩) ctxNone s0 = .error .notFound ∧
    applyOp (.moveTask 30 999 1) ctxOutsider s0 = .error .notFound :=
  ⟨(lookup_miss_error_order s0 ctxNone).2.1 999 ⟨none, none, none, none⟩ rfl,
   (lookup_miss_error_order s0 ctxOutsider).2.2.2.1 30 999 1 100 rfl rfl⟩

/-- C3 (amended): `createColumn` rejects with `BadInput` exactly the position
arguments below 1 (after its guard and title check pass), and `moveTask`
rejects with `BadInput` exactly the `toPosition` arguments below 1 (after its
resolutions, cross-project check and membership guard pass); positions above
count + 1 are accepted.  A rejected call happens before any write, so it
changes no state. -/
theorem position_validation_lower_bound_only :
    (∀ (s : KState) (ctx : Ctx) (projectId : Nat) (title : String) (position : Int),
      requireProjectOwnerOrAdmin s ctx projectId = .ok () →
      ¬ (strTrim title).length < 1 →
      ((position < 1 →
         createColumn s ctx projectId title position = .error .badInput) ∧
       (1 ≤ position → (createColumn s ctx projectId title position).isOk = true))) ∧
    (∀ (s : KState) (ctx : Ctx) (taskId toColumnId : Nat) (toPosition : Int) (p : Nat),
      getProjectIdByTaskId s taskId = .ok p →
      getProjectIdByColumnId s toColumnId = .ok p →
      requireProjectMember s ctx p = .ok () →
      ((toPosition < 1 →
         moveTask s ctx taskId toColumnId toPosition = .error .badInput) ∧
       (1 ≤ toPosition →
         (moveTask s ctx taskId toColumnId toPosition).isOk = true))) := by
  constructor
  · intro s ctx projectId title position hguard htitle
    constructor
    · intro hlt
      simp [createColumn, hguard, htitle, hlt]
    · intro hge
      have hlt : ¬ position < 1 := by omega
      simp [createColumn, hguard, htitle, hlt, Except.isOk, Except.toBool]
  · intro s ctx taskId toColumnId toPosition p hf ht hguard
    obtain ⟨t, c, hT, hC, hcp⟩ := getProjectIdByTaskId_ok_inv hf
    constructor
    · intro hlt
      simp [moveTask, hf, ht, hguard, hlt]
    · intro hge
      have hlt : ¬ toPosition < 1 := by omega
      simp [moveTask, hf, ht, hguard, hlt, hT, Except.isOk, Except.toBool]

/-- C3 witness: position 0 is rejected with `BadInput`; position 2 (= count
of column 10's tasks, in range) is accepted. -/
theorem position_validation_lower_bound_only_witness :
    createColumn s0 ctxOwner 100 "X" 0 = .error .badInput ∧
    (moveTask s0 ctxOwner 30 10 2).isOk = true :=
  ⟨(position_validation_lower_bound_only.1 s0 ctxOwner 100 "X" 0 rfl
      (by decide)).1 (by decide),
   (position_validation_lower_bound_only.2 s0 ctxOwner 30 10 2 100 rfl rfl rfl).2
      (by decide)⟩

/-- C3 counterexample: with the guards passing, `createColumn` at position 4
on a project with 2 columns succeeds instead of failing with `BadInput`, and
`moveTask` to position 7 in a column with 0 tasks succeeds as well — there is
no `count + 1` upper bound. -/
theorem position_validation_no_upper_bound_counterexample :
    (colPositions s0 100).length = 2 ∧
    (createColumn s0 ctxOwner 100 "X" 4).isOk = true ∧
    (taskPositions s0 11).length = 0 ∧
    (moveTask s0 ctxOwner 30 11 7).isOk = true :=
  ⟨rfl, rfl, rfl, rfl⟩

lemma ctxUserId_eq {ctx : Ctx} {u : AuthUser} (hu : ctx.user = some u) :
    ctxUserId ctx = u.id := by
  simp [ctxUserId, hu]

lemma createColumn_ok_activity {s : KState} {ctx : Ctx} {projectId : Nat}
    {title : String} {position : Int} {s' : KState}
    (h : createColumn s ctx projectId title position = .ok s') :
    ∃ u, ctx.user = some u ∧
      ∃ row, s'.activity = row :: s.activity ∧ row.actorId = u.id ∧
        row.action = "COLUMN_CREATED" := by
  cases hu : ctx.user with
  | none => simp [createColumn, requireProjectOwnerOrAdmin, hu] at h
  | some u =>
    refine ⟨u, rfl, ?_⟩
    unfold createColumn at h
    split at h
    · simp at h
    · split at h
      · simp at h
      · split at h
        · simp at h
        · injection h with h
          subst h
          exact ⟨_, rfl, ctxUserId_eq hu, rfl⟩

lemma createTask_ok_activity {s : KState} {ctx : Ctx} {columnId : Nat}
    {title : String} {d : Option String} {dd : Option Nat} {a : Option Nat}
    {s' : KState}
    (h : createTask s ctx columnId title d dd a = .ok s') :
    ∃ u, ctx.user = some u ∧
      ∃ row, s'.activity = row :: s.activity ∧ row.actorId = u.id ∧
        row.action = "TASK_CREATED" := by
  cases hu : ctx.user with
  | none =>
    cases hres : getProjectIdByColumnId s columnId with
    | error e => simp [createTask, hres] at h
    | ok p => simp [createTask, hres, requireProjectMember, hu] at h
  | some u =>
    refine ⟨u, rfl, ?_⟩
    unfold createTask at h
    split at h
    · simp at h
    · split at h
      · simp at h
      · split at h
        · simp at h
        · split at h
          · simp at h
          · injection h with h
            subst h
            exact ⟨_, rfl, ctxUserId_eq hu, rfl⟩

lemma updateTask_ok_activity {s : KState} {ctx : Ctx} {taskId : Nat}
    {input : UpdateTaskInput} {s' : KState}
    (h : updateTask s ctx taskId input = .ok s') :
    ∃ u, ctx.user = some u ∧
      ∃ row, s'.activity = row :: s.activity ∧ row.actorId = u.id ∧
        row.action = "TASK_UPDATED" := by
  cases hu : ctx.user with
  | none =>
    cases hres : getProjectIdByTaskId s taskId with
    | error e => simp [updateTask, hres] at h
    | ok p => simp [updateTask, hres, requireProjectMember, hu] at h
  | some u =>
    refine ⟨u, rfl, ?_⟩
    unfold updateTask at h
    split at h
    · simp at h
    · split at h
      · simp at h
      · split at h
        · simp at h
        · split at h
          · simp at h
          · injection h with h
            subst h
            exact ⟨_, rfl, ctxUserId_eq hu, rfl⟩

lemma moveTask_ok_activity {s : KState} {ctx : Ctx} {taskId toColumnId : Nat}
    {toPosition : Int} {s' : KState}
    (h : moveTask s ctx taskId toColumnId toPosition = .ok s') :
    ∃ u, ctx.user = some u ∧
      ∃ row, s'.activity = row :: s.activity ∧ row.actorId = u.id ∧
        row.action = "TASK_MOVED" := by
  cases hu : ctx.user with
  | none =>
    cases hr1 : getProjectIdByTaskId s taskId with
    | error e => simp [moveTask, hr1] at h
    | ok fp =>
      cases hr2 : getProjectIdByColumnId s toColumnId with
      | error e => simp [moveTask, hr1, hr2] at h
      | ok tp =>
        by_cases hne : fp = tp
        · simp [moveTask, hr1, hr2, hne, requireProjectMember, hu] at h
        · simp [moveTask, hr1, hr2, hne] at h
  | some u =>
    refine ⟨u, rfl, ?_⟩
    unfold moveTask at h
    split at h
    · simp at h
    · split at h
      · simp at h
      · split at h
        · simp at h
        · split at h
          · simp at h
          · split at h
            · simp at h
            · split at h
              · simp at h
              · injection h with h
                subst h
                exact ⟨_, rfl, ctxUserId_eq hu, rfl⟩

lemma assignTask_ok_activity {s : KState} {ctx : Ctx} {taskId : Nat}
    {assigneeId : Option Nat} {s' : KState}
    (h : assignTask s ctx taskId assigneeId = .ok s') :
    ∃ u, ctx.user = some u ∧
      ∃ row, s'.activity = row :: s.activity ∧ row.actorId = u.id ∧
        row.action = "TASK_ASSIGNED" := by
  cases hu : ctx.user with
  | none =>
    cases hres : getProjectIdByTaskId s taskId with
    | error e => simp [assignTask, hres] at h
    | ok p => simp [assignTask, hres, requireProjectMember, hu] at h
  | some u =>
    refine ⟨u, rfl, ?_⟩
    unfold assignTask at h
    split at h
    · simp at h
    · split at h
      · simp at h
      · split at h
        · simp at h
        · injection h with h
          subst h
          exact ⟨_, rfl, ctxUserId_eq hu, rfl⟩

lemma commentTask_ok_activity {s : KState} {ctx : Ctx} {taskId : Nat}
    {content : String} {s' : KState}
    (h : commentTask s ctx taskId content = .ok s') :
    ∃ u, ctx.user = some u ∧
      ∃ row, s'.activity = row :: s.activity ∧ row.actorId = u.id ∧
        row.action = "COMMENT_ADDED" := by
  cases hu : ctx.user with
  | none => simp [commentTask, requireAuth, hu] at h
  | some u =>
    refine ⟨u, rfl, ?_⟩
    unfold commentTask at h
    split at h
    · simp at h
    · split at h
      · simp at h
      · split at h
        · simp at h
        · split at h
          · simp at h
          · injection h with h
            subst h
            exact ⟨_, rfl, ctxUserId_eq hu, rfl⟩

lemma acceptInvite_ok_activity {s : KState} {ctx : Ctx} {token : String}
    {s' : KState}
    (h : acceptInvite s ctx token = .ok s') :
    ∃ u, ctx.user = some u ∧
      ∃ row, s'.activity = row :: s.activity ∧ row.actorId = u.id ∧
        row.action = "INVITE_ACCEPTED" := by
  cases hu : ctx.user with
  | none => simp [acceptInvite, requireAuth, hu] at h
  | some u =>
    refine ⟨u, rfl, ?_⟩
    unfold acceptInvite at h
    split at h
    · simp at h
    · split at h
      · simp at h
      · split at h
        · simp at h
        · split at h
          · simp at h
          · split at h
            · simp at h
            · injection h with h
              subst h
              exact ⟨_, rfl, ctxUserId_eq hu, rfl⟩

lemma addLabelToTask_ok_activity {s : KState} {ctx : Ctx} {taskId labelId : Nat}
    {s' : KState}
    (h : addLabelToTask s ctx taskId labelId = .ok s') :
    ∃ u, ctx.user = some u ∧
      ∃ row, s'.activity = row :: s.activity ∧ row.actorId = u.id ∧
        row.action = "LABEL_ADDED_TO_TASK" := by
  cases hu : ctx.user with
  | none =>
    cases hres : getProjectIdByTaskId s taskId with
    | error e => simp [addLabelToTask, hres] at h
    | ok p => simp [addLabelToTask, hres, requireProjectMember, hu] at h
  | some u =>
    refine ⟨u, rfl, ?_⟩
    unfold addLabelToTask at h
    split at h
    · simp at h
    · split at h
      · simp at h
      · split at h
        · simp at h
        · split at h
          · simp at h
          · split at h
            · dsimp only at h
              split at h
              · simp at h
              · injection h with h
                subst h
                exact ⟨_, rfl, ctxUserId_eq hu, rfl⟩
            · dsimp only at h
              split at h
              · simp at h
              · injection h with h
                subst h
                exact ⟨_, rfl, ctxUserId_eq hu, rfl⟩

lemma removeLabelFromTask_ok_activity {s : KState} {ctx : Ctx}
    {taskId labelId : Nat} {s' : KState}
    (h : removeLabelFromTask s ctx taskId labelId = .ok s') :
    ∃ u, ctx.user = some u ∧
      ∃ row, s'.activity = row :: s.activity ∧ row.actorId = u.id ∧
        row.action = "LABEL_REMOVED_FROM_TASK" := by
  cases hu : ctx.user with
  | none =>
    cases hres : getProjectIdByTaskId s taskId with
    | error e => simp [removeLabelFromTask, hres] at h
    | ok p => simp [removeLabelFromTask, hres, requireProjectMember, hu] at h
  | some u =>
    refine ⟨u, rfl, ?_⟩
    unfold removeLabelFromTask at h
    split at h
    · simp at h
    · split at h
      · simp at h
      · split at h
        · simp at h
        · split at h
          · simp at h
          · dsimp only at h
            split at h
            · simp at h
            · injection h with h
              subst h
              exact ⟨_, rfl, ctxUserId_eq hu, rfl⟩

/-- C4 (amended): every successful modelled mutation appends exactly one
ActivityLog row, written with the acting user and the operation's action tag.
The converse half of the claim fails (see the counterexample): a successful
call that changes no project/task/column state — e.g. re-adding an already
attached label — still appends a row. -/
theorem mutation_appends_one_log_row (op : Op) (ctx : Ctx) (s s' : KState)
    (h : applyOp op ctx s = .ok s') :
    ∃ u, ctx.user = some u ∧
      ∃ row, s'.activity = row :: s.activity ∧ row.actorId = u.id ∧
        row.action = actionTag op := by
  cases op with
  | createColumn projectId title position => exact createColumn_ok_activity h
  | createTask columnId title d dd a => exact createTask_ok_activity h
  | updateTask taskId input => exact updateTask_ok_activity h
  | moveTask taskId toColumnId toPosition => exact moveTask_ok_activity h
  | assignTask taskId assigneeId => exact assignTask_ok_activity h
  | commentTask taskId content => exact commentTask_ok_activity h
  | acceptInvite token => exact acceptInvite_ok_activity h
  | addLabelToTask taskId labelId => exact addLabelToTask_ok_activity h
  | removeLabelFromTask taskId labelId => exact removeLabelFromTask_ok_activity h

/-- C4 witness: the owner's `addLabelToTask` on `s0` succeeds and appends one
`LABEL_ADDED_TO_TASK` row with the owner as actor. -/
theorem mutation_appends_one_log_row_witness :
    ∃ u, ctxOwner.user = some u ∧
      ∃ row, s0L.activity = row :: s0.activity ∧ row.actorId = u.id ∧
        row.action = actionTag (.addLabelToTask 30 40) :=
  mutation_appends_one_log_row (.addLabelToTask 30 40) ctxOwner s0 s0L rfl

/-- C4 counterexample: re-adding label 40 to task 30 succeeds, changes no
state outside the activity log (the upsert is a no-op), and still appends a
log row — so the claimed 1:1 correspondence between state-changing mutations
and log rows fails. -/
theorem noop_addLabel_still_logs_counterexample :
    applyOp (.addLabelToTask 30 40) ctxOwner s0 = .ok s0L ∧
    applyOp (.addLabelToTask 30 40) ctxOwner s0L = .ok s0L2 ∧
    s0L2.taskLabels = s0L.taskLabels ∧ s0L2.tasks = s0L.tasks ∧
    s0L2.columns = s0L.columns ∧ s0L2.members = s0L.members ∧
    s0L2.users = s0L.users ∧ s0L2.labels = s0L.labels ∧
    s0L2.invitations = s0L.invitations ∧ s0L2.comments = s0L.comments ∧
    s0L2.nextId = s0L.nextId ∧
    s0L2.activity.length = s0L.activity.length + 1 :=
  ⟨rfl, rfl, rfl, rfl, rfl, rfl, rfl, rfl, rfl, rfl, rfl, rfl⟩

lemma acceptInvite_ok_inv {s : KState} {ctx : Ctx} {token : String} {s' : KState}
    (h : acceptInvite s ctx token = .ok s') :
    ∃ invite, findInvitation s token = some invite ∧
      invite.status = InvitationStatus.PENDING ∧
      s' = { s with
              members :=
                if (findMembership s invite.projectId (ctxUserId ctx)).isSome
                then s.members
                else s.members ++
                  [{ projectId := invite.projectId, userId := ctxUserId ctx,
                     projectRole := ProjectRole.MEMBER }],
              invitations := s.invitations.map (fun i =>
                if i.token == token
                then { i with status := InvitationStatus.ACCEPTED } else i),
              activity := { action := "INVITE_ACCEPTED", actorId := ctxUserId ctx,
                            projectId := invite.projectId, taskId := none }
                :: s.activity } := by
  unfold acceptInvite at h
  split at h
  · simp at h
  · split at h
    · simp at h
    · rename_i invite heq
      split at h
      · simp at h
      · rename_i hst
        split at h
        · simp at h
        · split at h
          · simp at h
          · injection h with h
            subst h
            exact ⟨invite, heq, not_not.mp hst, rfl⟩

lemma addLabelToTask_ok_inv {s : KState} {ctx : Ctx} {taskId labelId : Nat}
    {s' : KState}
    (h : addLabelToTask s ctx taskId labelId = .ok s') :
    ∃ projectId label, getProjectIdByTaskId s taskId = .ok projectId ∧
      requireProjectMember s ctx projectId = .ok () ∧
      findLabel s labelId = some label ∧ label.projectId = projectId ∧
      s' = { s with
              taskLabels :=
                if (findTaskLabel s taskId labelId).isSome then s.taskLabels
                else s.taskLabels ++ [{ taskId := taskId, labelId := labelId }],
              activity := { action := "LABEL_ADDED_TO_TASK",
                            actorId := ctxUserId ctx, projectId := projectId,
                            taskId := some taskId } :: s.activity } := by
  unfold addLabelToTask at h
  split at h
  · simp at h
  · rename_i projectId hres
    split at h
    · simp at h
    · rename_i a hg
      split at h
      · simp at h
      · rename_i label hlab
        split at h
        · simp at h
        · rename_i hproj
          refine ⟨projectId, label, hres, ?_, hlab, not_not.mp hproj, ?_⟩
          · cases a
            exact hg
          · split at h
            · rename_i hfl
              dsimp only at h
              split at h
              · simp at h
              · injection h with h
                subst h
                rw [if_pos hfl]
            · rename_i hfl
              dsimp only at h
              split at h
              · simp at h
              · injection h with h
                subst h
                rw [if_neg hfl]

lemma find?_token_map (invs : List Invitation) (token : String)
    (g : Invitation → Invitation) (hg : ∀ i, (g i).token = i.token) :
    (invs.map g).find? (fun i => i.token == token)
      = (invs.find? (fun i => i.token == token)).map g := by
  rw [List.find?_map]
  have hfun : ((fun i : Invitation => i.token == token) ∘ g)
      = (fun i : Invitation => i.token == token) := by
    funext i
    simp [Function.comp, hg i]
  rw [hfun]

lemma countP_pair_eq_one (l : List ProjectMember) (pid uid : Nat)
    (hnd : (l.map (fun m => (m.projectId, m.userId))).Nodup)
    (hmem : ∃ m ∈ l, m.projectId = pid ∧ m.userId = uid) :
    l.countP (fun m => m.projectId == pid && m.userId == uid) = 1 := by
  induction l with
  | nil =>
    obtain ⟨m, hm, _⟩ := hmem
    exact absurd hm (by simp)
  | cons m l ih =>
    simp only [List.map_cons, List.nodup_cons] at hnd
    by_cases hm : m.projectId = pid ∧ m.userId = uid
    · rw [List.countP_cons]
      have hz : l.countP (fun m => m.projectId == pid && m.userId == uid) = 0 := by
        rw [List.countP_eq_zero]
        intro x hx hpx
        simp only [Bool.and_eq_true, beq_iff_eq] at hpx
        apply hnd.1
        rw [List.mem_map]
        exact ⟨x, hx, by rw [hpx.1, hpx.2, hm.1, hm.2]⟩
      rw [hz]
      simp [hm.1, hm.2]
    · rw [List.countP_cons]
      have hpm : (m.projectId == pid && m.userId == uid) = false := by
        rcases Decidable.not_and_iff_or_not.mp hm with hc | hc <;> simp [hc]
      rw [hpm]
      simp only [Bool.false_eq_true, if_false, Nat.add_zero]
      apply ih hnd.2
      obtain ⟨m2, hm2, hpair⟩ := hmem
      rcases List.mem_cons.mp hm2 with rfl | hm2'
      · exact absurd hpair hm
      · exact ⟨m2, hm2', hpair⟩

/-- C8: after a successful `acceptInvite` exactly one membership row exists
for the invitation's (project, actor) pair, and a second `acceptInvite` of
the same token fails with `BadInput` because the invitation is no longer
PENDING; accepting a non-PENDING (REVOKED or ACCEPTED) invitation always
fails with `BadInput`.  Each failure precedes every write, so it changes no
state. -/
theorem acceptInvite_single_membership_and_terminal (s : KState) (ctx : Ctx)
    (u : AuthUser) (token : String) (invite : Invitation)
    (hv : Valid s) (hu : ctx.user = some u)
    (hinv : findInvitation s token = some invite) :
    (∀ s', applyOp (.acceptInvite token) ctx s = .ok s' →
      s'.members.countP (fun m => m.projectId == invite.projectId &&
        m.userId == u.id) = 1 ∧
      applyOp (.acceptInvite token) ctx s' = .error .badInput) ∧
    (invite.status ≠ InvitationStatus.PENDING →
      applyOp (.acceptInvite token) ctx s = .error .badInput) := by
  have htok : (invite.token == token) = true := by
    have h2 : s.invitations.find? (fun i => i.token == token) = some invite := hinv
    have h3 := List.find?_some h2
    simpa using h3
  constructor
  · intro s' hok
    obtain ⟨invite2, hinv2, hpend, hs'⟩ := acceptInvite_ok_inv hok
    rw [hinv] at hinv2
    injection hinv2 with hinv2
    subst hinv2
    constructor
    · have hmembers : s'.members =
          if (findMembership s invite.projectId u.id).isSome then s.members
          else s.members ++
            [{ projectId := invite.projectId, userId := u.id,
               projectRole := ProjectRole.MEMBER }] := by
        rw [hs', ctxUserId_eq hu]
      rw [hmembers]
      by_cases hms : (findMembership s invite.projectId u.id).isSome = true
      · rw [if_pos hms]
        obtain ⟨m, hm⟩ := Option.isSome_iff_exists.mp hms
        have hmm := List.mem_of_find?_eq_some hm
        have hmp := List.find?_some hm
        simp only [Bool.and_eq_true, beq_iff_eq] at hmp
        exact countP_pair_eq_one s.members invite.projectId u.id
          hv.2.2.2.2.2.2 ⟨m, hmm, hmp⟩
      · rw [if_neg hms]
        rw [List.countP_append]
        have hz : s.members.countP (fun m => m.projectId == invite.projectId &&
            m.userId == u.id) = 0 := by
          rw [List.countP_eq_zero]
          intro x hx hpx
          have : findMembership s invite.projectId u.id = none := by
            cases hfm : findMembership s invite.projectId u.id with
            | none => rfl
            | some m => rw [hfm] at hms; simp at hms
          rw [findMembership, List.find?_eq_none] at this
          exact this x hx hpx
        rw [hz]
        simp
    · have hfind' : findInvitation s' token =
          some { invite with status := InvitationStatus.ACCEPTED } := by
        have hinvs : s'.invitations = s.invitations.map (fun i =>
            if i.token == token
            then { i with status := InvitationStatus.ACCEPTED } else i) := by
          rw [hs']
        rw [findInvitation, hinvs, find?_token_map]
        · rw [show s.invitations.find? (fun i => i.token == token)
              = some invite from hinv]
          simp only [Option.map_some']
          rw [if_pos htok]
        · intro i
          dsimp only
          split <;> rfl
      have hst2 : ({ invite with status := InvitationStatus.ACCEPTED
          } : Invitation).status ≠ InvitationStatus.PENDING := by
        simp
      simp [applyOp, acceptInvite, requireAuth, hu, hfind', hst2]
  · intro hst
    simp [applyOp, acceptInvite, requireAuth, hu, hinv, hst]

/-- C8 witness: user 3 accepts `tok1` into project 100: one membership row,
and a second acceptance fails with `BadInput`. -/
theorem acceptInvite_single_membership_and_terminal_witness :
    s0A.members.countP (fun m => m.projectId == 100 && m.userId == 3) = 1 ∧
    applyOp (.acceptInvite "tok1") ctxMem s0A = .error .badInput :=
  (acceptInvite_single_membership_and_terminal s0 ctxMem ⟨3, Role.USER⟩ "tok1"
    ⟨"tok1", 100, "mem@x.com", InvitationStatus.PENDING⟩ (by decide) rfl rfl).1
    s0A rfl

/-- C9: when the actor of a successful `acceptInvite` is already a member of
the invitation's project, the membership table is left completely unchanged —
in particular an existing OWNER keeps the OWNER projectRole and is not
demoted by the upsert; only the invitation's status flips to ACCEPTED, plus
the single audit append — every other table and the id supply are
untouched. -/
theorem acceptInvite_existing_member_frame (s : KState) (ctx : Ctx)
    (u : AuthUser) (token : String) (invite : Invitation) (s' : KState)
    (hu : ctx.user = some u)
    (hinv : findInvitation s token = some invite)
    (hmem : (findMembership s invite.projectId u.id).isSome = true)
    (hok : applyOp (.acceptInvite token) ctx s = .ok s') :
    s'.members = s.members ∧
    s'.invitations = s.invitations.map (fun i =>
      if i.token == token
      then { i with status := InvitationStatus.ACCEPTED } else i) ∧
    s'.users = s.users ∧ s'.columns = s.columns ∧ s'.tasks = s.tasks ∧
    s'.labels = s.labels ∧ s'.taskLabels = s.taskLabels ∧
    s'.comments = s.comments ∧ s'.nextId = s.nextId ∧
    ∃ row, s'.activity = row :: s.activity := by
  obtain ⟨invite2, hinv2, hpend, hs'⟩ := acceptInvite_ok_inv hok
  rw [hinv] at hinv2
  injection hinv2 with hinv2
  subst hinv2
  rw [hs']
  refine ⟨?_, rfl, rfl, rfl, rfl, rfl, rfl, rfl, rfl, ⟨_, rfl⟩⟩
  show (if (findMembership s invite.projectId (ctxUserId ctx)).isSome
        then s.members else _) = s.members
  rw [ctxUserId_eq hu, if_pos hmem]

/-- C9 witness: the owner of project 100 (projectRole OWNER) accepts the
invitation `tok2` addressed to their own email: the membership rows are
bit-for-bit unchanged (no demotion to MEMBER), tasks are untouched, and one
audit row is appended. -/
theorem acceptInvite_existing_member_frame_witness :
    s0B.members = s0.members ∧ s0B.tasks = s0.tasks ∧
    ∃ row, s0B.activity = row :: s0.activity :=
  have h := acceptInvite_existing_member_frame s0 ctxOwner ⟨1, Role.USER⟩ "tok2"
    ⟨"tok2", 100, "owner@x.com", InvitationStatus.PENDING⟩ s0B rfl rfl rfl rfl
  ⟨h.1, h.2.2.2.2.1, h.2.2.2.2.2.2.2.2.2⟩

lemma getProjectIdByTaskId_congr {s s' : KState} (ht : s'.tasks = s.tasks)
    (hc : s'.columns = s.columns) (taskId : Nat) :
    getProjectIdByTaskId s' taskId = getProjectIdByTaskId s taskId := by
  unfold getProjectIdByTaskId findTask findColumn
  rw [ht, hc]

lemma requireProjectMember_congr {s s' : KState} (hm : s'.members = s.members)
    (ctx : Ctx) (pid : Nat) :
    requireProjectMember s' ctx pid = requireProjectMember s ctx pid := by
  unfold requireProjectMember findMembership
  rw [hm]

lemma findLabel_congr {s s' : KState} (hl : s'.labels = s.labels) (labelId : Nat) :
    findLabel s' labelId = findLabel s labelId := by
  unfold findLabel
  rw [hl]

lemma findTask_congr {s s' : KState} (ht : s'.tasks = s.tasks) (taskId : Nat) :
    findTask s' taskId = findTask s taskId := by
  unfold findTask
  rw [ht]

/-- C10: `addLabelToTask` is idempotent: after one successful call, repeating
it with the same (taskId, labelId) succeeds again, leaves the task-label link
table unchanged (the upsert is a no-op), and the task's resulting set of
attached labels equals the set after the single call. -/
theorem addLabelToTask_idempotent (s : KState) (ctx : Ctx) (taskId labelId : Nat)
    (s1 : KState)
    (h1 : applyOp (.addLabelToTask taskId labelId) ctx s = .ok s1) :
    (applyOp (.addLabelToTask taskId labelId) ctx s1).isOk = true ∧
    (okState (applyOp (.addLabelToTask taskId labelId) ctx s1) s1).taskLabels
      = s1.taskLabels ∧
    attachedLabelIds (okState (applyOp (.addLabelToTask taskId labelId) ctx s1) s1)
      taskId = attachedLabelIds s1 taskId := by
  have h1' : addLabelToTask s ctx taskId labelId = .ok s1 := h1
  obtain ⟨pid, label, hres, hg, hlab, hproj, hs1⟩ := addLabelToTask_ok_inv h1'
  have htasks : s1.tasks = s.tasks := by rw [hs1]
  have hcols : s1.columns = s.columns := by rw [hs1]
  have hmembers : s1.members = s.members := by rw [hs1]
  have hlabels : s1.labels = s.labels := by rw [hs1]
  have hres1 : getProjectIdByTaskId s1 taskId = .ok pid := by
    rw [getProjectIdByTaskId_congr htasks hcols]
    exact hres
  have hg1 : requireProjectMember s1 ctx pid = .ok () := by
    rw [requireProjectMember_congr hmembers]
    exact hg
  have hlab1 : findLabel s1 labelId = some label := by
    rw [findLabel_congr hlabels]
    exact hlab
  have hfl1 : (findTaskLabel s1 taskId labelId).isSome = true := by
    by_cases hfl : (findTaskLabel s taskId labelId).isSome = true
    · have htl : s1.taskLabels = s.taskLabels := by
        rw [hs1]
        show (if (findTaskLabel s taskId labelId).isSome then _ else _) = _
        rw [if_pos hfl]
      unfold findTaskLabel
      rw [htl]
      exact hfl
    · have htl : s1.taskLabels
          = s.taskLabels ++ [{ taskId := taskId, labelId := labelId }] := by
        rw [hs1]
        show (if (findTaskLabel s taskId labelId).isSome then _ else _) = _
        rw [if_neg hfl]
      unfold findTaskLabel
      rw [htl, List.find?_isSome]
      exact ⟨{ taskId := taskId, labelId := labelId }, by simp, by simp⟩
  obtain ⟨t, c, hT, hC, hcp⟩ := getProjectIdByTaskId_ok_inv hres
  have hT1 : findTask s1 taskId = some t := by
    rw [findTask_congr htasks]
    exact hT
  have hok2 : addLabelToTask s1 ctx taskId labelId = .ok
      { s1 with
          activity := { action := "LABEL_ADDED_TO_TASK", actorId := ctxUserId ctx,
                        projectId := pid, taskId := some taskId }
            :: s1.activity } := by
    unfold addLabelToTask
    simp only [hres1, hg1, hlab1]
    rw [if_neg (by simp [hproj])]
    rw [if_pos hfl1]
    have hT2 : findTask
        { s1 with
            taskLabels := s1.taskLabels,
            activity := { action := "LABEL_ADDED_TO_TASK", actorId := ctxUserId ctx,
                          projectId := pid, taskId := some taskId }
              :: s1.activity } taskId = some t := by
      rw [findTask_congr ?_ taskId]
      · exact hT1
      · rfl
    simp only [hT2]
  have hope : applyOp (.addLabelToTask taskId labelId) ctx s1 = .ok
      { s1 with
          activity := { action := "LABEL_ADDED_TO_TASK", actorId := ctxUserId ctx,
                        projectId := pid, taskId := some taskId }
            :: s1.activity } := hok2
  rw [hope]
  exact ⟨rfl, rfl, rfl⟩

/-- C10 witness: re-adding label 40 to task 30 succeeds and leaves the link
table and task 30's label set exactly as after the first call. -/
theorem addLabelToTask_idempotent_witness :
    (applyOp (.addLabelToTask 30 40) ctxOwner s0L).isOk = true ∧
    (okState (applyOp (.addLabelToTask 30 40) ctxOwner s0L) s0L).taskLabels
      = s0L.taskLabels ∧
    attachedLabelIds (okState (applyOp (.addLabelToTask 30 40) ctxOwner s0L) s0L) 30
      = attachedLabelIds s0L 30 :=
  addLabelToTask_idempotent s0 ctxOwner 30 40 s0L rfl

lemma contiguous_of_perm_range' {l : List Nat} {n : Nat}
    (h : l.Perm (List.range' 1 n)) : Contiguous l := by
  have hlen := h.length_eq
  rw [List.length_range'] at hlen
  unfold Contiguous
  rw [hlen]
  exact h

lemma contiguous_of_perm {l l' : List Nat} (h : l.Perm l') (hc : Contiguous l') :
    Contiguous l :=
  contiguous_of_perm_range' (h.trans hc)

lemma range'_split (P n : Nat) (h1 : 1 ≤ P) (h2 : P ≤ n + 1) :
    List.range' 1 n = List.range' 1 (P - 1) ++ List.range' P (n + 1 - P) := by
  have h := List.range'_append 1 (P - 1) (n + 1 - P) 1
  have e1 : 1 + 1 * (P - 1) = P := by omega
  have e2 : n + 1 - P + (P - 1) = n := by omega
  rw [e1, e2] at h
  exact h.symm

lemma map_add_one_range' (s n : Nat) :
    (List.range' s n).map (fun x => x + 1) = List.range' (s + 1) n := by
  induction n generalizing s with
  | zero => rfl
  | succ n ih =>
    rw [List.range'_succ, List.range'_succ, List.map_cons, ih]

lemma shift_insert_perm {l : List Nat} {n P : Nat} (h1 : 1 ≤ P) (h2 : P ≤ n + 1)
    (hl : l.Perm (List.range' 1 n)) :
    (P :: l.map (fun x => if P ≤ x then x + 1 else x)).Perm
      (List.range' 1 (n + 1)) := by
  have hmap := hl.map (fun x => if P ≤ x then x + 1 else x)
  rw [range'_split P n h1 h2, List.map_append] at hmap
  have e1 : (List.range' 1 (P - 1)).map (fun x => if P ≤ x then x + 1 else x)
      = List.range' 1 (P - 1) := by
    have hcong : ∀ x ∈ List.range' 1 (P - 1),
        (if P ≤ x then x + 1 else x) = id x := by
      intro x hx
      rw [List.mem_range'_1] at hx
      simp only [id]
      rw [if_neg]
      omega
    rw [List.map_congr_left hcong, List.map_id]
  have e2 : (List.range' P (n + 1 - P)).map (fun x => if P ≤ x then x + 1 else x)
      = List.range' (P + 1) (n + 1 - P) := by
    have hcong : ∀ x ∈ List.range' P (n + 1 - P),
        (if P ≤ x then x + 1 else x) = x + 1 := by
      intro x hx
      rw [List.mem_range'_1] at hx
      rw [if_pos]
      omega
    rw [List.map_congr_left hcong, map_add_one_range']
  rw [e1, e2] at hmap
  have hcons := hmap.cons P
  have hmid : (P :: (List.range' 1 (P - 1) ++ List.range' (P + 1) (n + 1 - P))).Perm
      (List.range' 1 (P - 1) ++ P :: List.range' (P + 1) (n + 1 - P)) :=
    List.perm_middle.symm
  have hrange : List.range' 1 (P - 1) ++ P :: List.range' (P + 1) (n + 1 - P)
      = List.range' 1 (n + 1) := by
    have hP : P :: List.range' (P + 1) (n + 1 - P) = List.range' P (n + 2 - P) := by
      have e3 : n + 2 - P = (n + 1 - P) + 1 := by omega
      rw [e3, List.range'_succ]
    rw [hP]
    have h := List.range'_append 1 (P - 1) (n + 2 - P) 1
    have e4 : 1 + 1 * (P - 1) = P := by omega
    have e5 : n + 2 - P + (P - 1) = n + 1 := by omega
    rw [e4, e5] at h
    exact h
  exact (hcons.trans hmid).trans (hrange ▸ List.Perm.refl _)

lemma foldr_max_range' (s n : Nat) :
    (List.range' s n).foldr max 0 = if n = 0 then 0 else s + n - 1 := by
  induction n generalizing s with
  | zero => rfl
  | succ n ih =>
    rw [List.range'_succ, List.foldr_cons, ih]
    by_cases hn : n = 0
    · subst hn
      simp
    · rw [if_neg hn, if_neg (by omega)]
      omega

lemma foldr_max_of_perm {l : List Nat} {n : Nat}
    (hl : l.Perm (List.range' 1 n)) : l.foldr max 0 = n := by
  haveI : LeftCommutative (max : Nat → Nat → Nat) := ⟨fun a b c => by omega⟩
  have h : l.foldr max 0 = (List.range' 1 n).foldr max 0 := hl.foldr_eq 0
  rw [h, foldr_max_range']
  by_cases hn : n = 0
  · subst hn
    rfl
  · rw [if_neg hn]
    omega

lemma countP_lt_range' (P n : Nat) (h1 : 1 ≤ P) (h2 : P ≤ n + 1) :
    (List.range' 1 n).countP (fun x => decide (x < P)) = P - 1 := by
  rw [range'_split P n h1 h2, List.countP_append]
  have ha : (List.range' 1 (P - 1)).countP (fun x => decide (x < P))
      = P - 1 := by
    have hall : ∀ a ∈ List.range' 1 (P - 1), (fun x => decide (x < P)) a = true := by
      intro a ha
      rw [List.mem_range'_1] at ha
      simpa using (by omega : a < P)
    rw [List.countP_eq_length.mpr hall, List.length_range']
  have hb : (List.range' P (n + 1 - P)).countP (fun x => decide (x < P)) = 0 := by
    rw [List.countP_eq_zero]
    intro a ha
    rw [List.mem_range'_1] at ha
    simpa using (by omega : ¬ a < P)
  rw [ha, hb]
  omega

lemma insertSorted_perm (t : Task) (l : List Task) :
    (insertSorted t l).Perm (t :: l) := by
  induction l with
  | nil => exact List.Perm.refl _
  | cons u us ih =>
    rw [insertSorted]
    split
    · exact List.Perm.refl _
    · exact (ih.cons u).trans (List.Perm.swap t u us)

lemma sortByPos_perm (l : List Task) : (sortByPos l).Perm l := by
  induction l with
  | nil => exact List.Perm.refl _
  | cons t ts ih => exact (insertSorted_perm t (sortByPos ts)).trans (ih.cons t)

lemma insertSorted_pairwise (t : Task) (l : List Task)
    (h : l.Pairwise (fun a b => a.position ≤ b.position)) :
    (insertSorted t l).Pairwise (fun a b => a.position ≤ b.position) := by
  induction l with
  | nil => simp [insertSorted]
  | cons u us ih =>
    rw [List.pairwise_cons] at h
    rw [insertSorted]
    split
    · rename_i hle
      rw [List.pairwise_cons]
      constructor
      · intro b hb
        rcases List.mem_cons.mp hb with rfl | hb'
        · exact hle
        · exact le_trans hle (h.1 b hb')
      · exact List.pairwise_cons.mpr h
    · rename_i hgt
      rw [List.pairwise_cons]
      constructor
      · intro b hb
        have hb' := (insertSorted_perm t us).mem_iff.mp hb
        rcases List.mem_cons.mp hb' with rfl | hb''
        · omega
        · exact h.1 b hb''
      · exact ih h.2

lemma sortByPos_pairwise (l : List Task) :
    (sortByPos l).Pairwise (fun a b => a.position ≤ b.position) := by
  induction l with
  | nil => exact List.Pairwise.nil
  | cons t ts ih => exact insertSorted_pairwise t (sortByPos ts) ih

lemma applyPosUpdates_eq_map (ups : List (Nat × Nat)) (ts : List Task) :
    applyPosUpdates ups ts = ts.map (applyUps ups) := by
  induction ups generalizing ts with
  | nil =>
    show ts = ts.map (applyUps [])
    have h : ts.map (applyUps []) = ts.map id := List.map_congr_left (fun t _ => rfl)
    rw [h, List.map_id]
  | cons ip ups ih =>
    obtain ⟨i, p⟩ := ip
    rw [applyPosUpdates, ih, setPos, List.map_map]
    apply List.map_congr_left
    intro t _
    rfl

lemma applyUps_id (ups : List (Nat × Nat)) (t : Task) :
    (applyUps ups t).id = t.id := by
  induction ups generalizing t with
  | nil => rfl
  | cons ip ups ih =>
    show (applyUps ups (if t.id == ip.1 then { t with position := ip.2 } else t)).id
      = t.id
    rw [ih]
    split <;> rfl

lemma applyUps_columnId (ups : List (Nat × Nat)) (t : Task) :
    (applyUps ups t).columnId = t.columnId := by
  induction ups generalizing t with
  | nil => rfl
  | cons ip ups ih =>
    show (applyUps ups
        (if t.id == ip.1 then { t with position := ip.2 } else t)).columnId
      = t.columnId
    rw [ih]
    split <;> rfl

lemma applyUps_of_not_mem (ups : List (Nat × Nat)) (t : Task)
    (h : t.id ∉ ups.map Prod.fst) : applyUps ups t = t := by
  induction ups generalizing t with
  | nil => rfl
  | cons ip ups ih =>
    simp only [List.map_cons, List.mem_cons] at h
    push_neg at h
    show applyUps ups (if t.id == ip.1 then { t with position := ip.2 } else t) = t
    rw [if_neg (by simpa using h.1)]
    exact ih t h.2

lemma applyUps_lookup (ups : List (Nat × Nat)) (t : Task)
    (hnd : (ups.map Prod.fst).Nodup) :
    applyUps ups t = (match List.lookup t.id ups with
                      | some p => { t with position := p }
                      | none => t) := by
  induction ups generalizing t with
  | nil => rfl
  | cons ip ups ih =>
    obtain ⟨i, p⟩ := ip
    simp only [List.map_cons, List.nodup_cons] at hnd
    show applyUps ups (if t.id == i then { t with position := p } else t) = _
    by_cases h : t.id = i
    · have hbeq : (t.id == i) = true := by simpa using h
      rw [if_pos hbeq]
      rw [applyUps_of_not_mem ups _ (h ▸ hnd.1)]
      simp only [List.lookup, hbeq]
    · have hbeq : (t.id == i) = false := by simpa using h
      rw [if_neg (by simp [hbeq])]
      rw [ih t hnd.2]
      simp only [List.lookup, hbeq]

lemma renumberUpdates_fst (k : Nat) (l : List Task) :
    (renumberUpdates k l).map Prod.fst = l.map (fun t => t.id) := by
  induction l generalizing k with
  | nil => rfl
  | cons t ts ih => simp [renumberUpdates, ih]

lemma renumberUpdates_snd (k : Nat) (l : List Task) :
    (renumberUpdates k l).map Prod.snd = List.range' k l.length := by
  induction l generalizing k with
  | nil => rfl
  | cons t ts ih =>
    rw [renumberUpdates, List.map_cons, ih, List.length_cons, List.range'_succ]

lemma renumberUpdates_lookup (l : List Task) (k : Nat)
    (hnd : (l.map (fun t => t.id)).Nodup) :
    ∀ (j : Nat) (h : j < l.length),
      List.lookup (l.get ⟨j, h⟩).id (renumberUpdates k l) = some (k + j) := by
  induction l generalizing k with
  | nil =>
    intro j h
    exact absurd h (by simp)
  | cons t ts ih =>
    intro j h
    simp only [List.map_cons, List.nodup_cons] at hnd
    cases j with
    | zero =>
      show List.lookup t.id ((t.id, k) :: renumberUpdates (k + 1) ts) = some (k + 0)
      simp only [List.lookup, beq_self_eq_true]
      rfl
    | succ j =>
      have hj : j < ts.length := by simpa using h
      show List.lookup (ts.get ⟨j, hj⟩).id ((t.id, k) :: renumberUpdates (k + 1) ts)
        = some (k + (j + 1))
      have hne : (ts.get ⟨j, hj⟩).id ≠ t.id := by
        intro he
        exact hnd.1 (he ▸ List.mem_map.mpr ⟨ts.get ⟨j, hj⟩, List.get_mem ts j hj, rfl⟩)
      have hbeq : ((ts.get ⟨j, hj⟩).id == t.id) = false := by simpa using hne
      simp only [List.lookup, hbeq]
      rw [ih (k + 1) hnd.2 j hj]
      congr 1
      omega

lemma lookup_isSome_of_mem_keys (a : Nat) (es : List (Nat × Nat))
    (h : a ∈ es.map Prod.fst) : (List.lookup a es).isSome = true := by
  induction es with
  | nil => simp at h
  | cons e es ih =>
    obtain ⟨k, v⟩ := e
    simp only [List.map_cons, List.mem_cons] at h
    by_cases hk : a = k
    · have hbeq : (a == k) = true := by simpa using hk
      simp only [List.lookup, hbeq]
      rfl
    · have hbeq : (a == k) = false := by simpa using hk
      simp only [List.lookup, hbeq]
      exact ih (h.resolve_left hk)

lemma map_lookup_self (ups : List (Nat × Nat)) (hnd : (ups.map Prod.fst).Nodup) :
    (ups.map Prod.fst).map (fun i => (List.lookup i ups).getD 0)
      = ups.map Prod.snd := by
  induction ups with
  | nil => rfl
  | cons ip ups ih =>
    obtain ⟨i, p⟩ := ip
    simp only [List.map_cons, List.nodup_cons] at hnd
    rw [List.map_cons, List.map_cons, List.map_cons]
    congr 1
    · simp [List.lookup]
    · have hcong : ∀ j ∈ ups.map Prod.fst,
          (List.lookup j ((i, p) :: ups)).getD 0 = (List.lookup j ups).getD 0 := by
        intro j hj
        have hne : (j == i) = false := by
          have hji : j ≠ i := fun he => hnd.1 (he ▸ hj)
          simpa using hji
        simp only [List.lookup, hne]
      rw [List.map_congr_left hcong]
      exact ih hnd.2

lemma filter_map_applyUps (c : Nat) (ups : List (Nat × Nat)) (ts : List Task) :
    (ts.map (applyUps ups)).filter (fun t => t.columnId == c)
      = (ts.filter (fun t => t.columnId == c)).map (applyUps ups) := by
  rw [List.filter_map]
  congr 1
  apply List.filter_congr
  intro t _
  simp only [Function.comp_apply, applyUps_columnId]

lemma compaction_positions (c : Nat) (ts2 : List Task)
    (hids : (ts2.map (fun t => t.id)).Nodup) :
    (((applyPosUpdates (renumberUpdates 1
          (sortByPos (ts2.filter (fun t => t.columnId == c)))) ts2).filter
        (fun t => t.columnId == c)).map (fun t => t.position)).Perm
      (List.range' 1 (ts2.filter (fun t => t.columnId == c)).length) := by
  set l := ts2.filter (fun t => t.columnId == c) with hldef
  set sorted := sortByPos l with hsorteddef
  set ups := renumberUpdates 1 sorted with hupsdef
  have hlnd : (l.map (fun t => t.id)).Nodup :=
    ((List.filter_sublist ts2).map _).nodup hids
  have hsortperm : sorted.Perm l := sortByPos_perm l
  have hsnd : (sorted.map (fun t => t.id)).Nodup :=
    ((hsortperm.map _).symm).nodup hlnd
  have hkeys : ups.map Prod.fst = sorted.map (fun t => t.id) :=
    renumberUpdates_fst 1 sorted
  have hkeysnd : (ups.map Prod.fst).Nodup := by
    rw [hkeys]
    exact hsnd
  rw [applyPosUpdates_eq_map, filter_map_applyUps, List.map_map]
  have hpoint : ∀ t ∈ l, ((fun t => t.position) ∘ applyUps ups) t
      = (fun t : Task => (List.lookup t.id ups).getD 0) t := by
    intro t htl
    have htid : t.id ∈ ups.map Prod.fst := by
      rw [hkeys]
      exact (hsortperm.map (fun t => t.id)).symm.mem_iff.mp
        (List.mem_map.mpr ⟨t, htl, rfl⟩)
    obtain ⟨p, hp⟩ := Option.isSome_iff_exists.mp
      (lookup_isSome_of_mem_keys t.id ups htid)
    show (applyUps ups t).position = (List.lookup t.id ups).getD 0
    rw [applyUps_lookup ups t hkeysnd, hp]
    rfl
  rw [List.map_congr_left hpoint]
  have hmm1 : l.map (fun t : Task => (List.lookup t.id ups).getD 0)
      = (l.map (fun t => t.id)).map (fun i => (List.lookup i ups).getD 0) := by
    rw [List.map_map]
    exact List.map_congr_left (fun t _ => rfl)
  rw [hmm1]
  have hpermmap :
      ((l.map (fun t => t.id)).map (fun i => (List.lookup i ups).getD 0)).Perm
        ((sorted.map (fun t => t.id)).map (fun i => (List.lookup i ups).getD 0)) :=
    ((hsortperm.map _).symm.map _)
  have hfinal : (sorted.map (fun t => t.id)).map
      (fun i => (List.lookup i ups).getD 0) = ups.map Prod.snd := by
    rw [← hkeys]
    exact map_lookup_self ups hkeysnd
  rw [hfinal] at hpermmap
  have hsnd2 : ups.map Prod.snd = List.range' 1 sorted.length :=
    renumberUpdates_snd 1 sorted
  have hlen : sorted.length = l.length := hsortperm.length_eq
  rw [hsnd2, hlen] at hpermmap
  exact hpermmap

lemma countP_lt_get_of_sorted (l : List Task)
    (hs : l.Pairwise (fun a b => a.position ≤ b.position))
    (hnd : (l.map (fun t => t.position)).Nodup) :
    ∀ (j : Nat) (h : j < l.length),
      l.countP (fun u => decide (u.position < (l.get ⟨j, h⟩).position)) = j := by
  induction l with
  | nil =>
    intro j h
    exact absurd h (by simp)
  | cons a l ih =>
    intro j h
    rw [List.pairwise_cons] at hs
    simp only [List.map_cons, List.nodup_cons] at hnd
    cases j with
    | zero =>
      show (a :: l).countP (fun u => decide (u.position < a.position)) = 0
      rw [List.countP_eq_zero]
      intro u hu
      rcases List.mem_cons.mp hu with rfl | hu'
      · simp
      · have := hs.1 u hu'
        simp only [decide_eq_true_eq]
        omega
    | succ j =>
      have hj : j < l.length := by simpa using h
      show (a :: l).countP (fun u => decide (u.position < (l.get ⟨j, hj⟩).position))
        = j + 1
      rw [List.countP_cons]
      have hv : a.position < (l.get ⟨j, hj⟩).position := by
        have hle := hs.1 _ (List.get_mem l j hj)
        have hne : a.position ≠ (l.get ⟨j, hj⟩).position := by
          intro he
          exact hnd.1 (he ▸ List.mem_map.mpr ⟨l.get ⟨j, hj⟩, List.get_mem l j hj, rfl⟩)
        omega
      rw [ih hs.2 hnd.2 j hj]
      have hv' : a.position < l[j].position := hv
      simp [hv']

lemma compaction_applyUps_pos (c : Nat) (ts2 : List Task)
    (hids : (ts2.map (fun t => t.id)).Nodup)
    (hpos : ((ts2.filter (fun t => t.columnId == c)).map
      (fun t => t.position)).Nodup)
    (x : Task) (hx : x ∈ ts2) (hxc : x.columnId = c) :
    applyUps (renumberUpdates 1 (sortByPos (ts2.filter (fun t => t.columnId == c)))) x
      = { x with position :=
            1 + (ts2.filter (fun t => t.columnId == c)).countP
                  (fun u => decide (u.position < x.position)) } := by
  set l := ts2.filter (fun t => t.columnId == c) with hldef
  set sorted := sortByPos l with hsorteddef
  have hsortperm : sorted.Perm l := sortByPos_perm l
  have hlnd : (l.map (fun t => t.id)).Nodup :=
    ((List.filter_sublist ts2).map _).nodup hids
  have hsnd : (sorted.map (fun t => t.id)).Nodup :=
    ((hsortperm.map _).symm).nodup hlnd
  have hxl : x ∈ l := by
    rw [hldef]
    exact List.mem_filter.mpr ⟨hx, by simp [hxc]⟩
  have hxs : x ∈ sorted := hsortperm.mem_iff.mpr hxl
  obtain ⟨⟨j, hj⟩, hget⟩ := List.mem_iff_get.mp hxs
  have hlook := renumberUpdates_lookup sorted 1 hsnd j hj
  rw [hget] at hlook
  have hkeysnd : ((renumberUpdates 1 sorted).map Prod.fst).Nodup := by
    rw [renumberUpdates_fst]
    exact hsnd
  rw [applyUps_lookup _ x hkeysnd, hlook]
  have hspos : (sorted.map (fun t => t.position)).Nodup :=
    ((hsortperm.map _).symm).nodup hpos
  have hcnt := countP_lt_get_of_sorted sorted (sortByPos_pairwise l) hspos j hj
  rw [hget] at hcnt
  have hcnt2 : sorted.countP (fun u => decide (u.position < x.position))
      = l.countP (fun u => decide (u.position < x.position)) :=
    hsortperm.countP_eq _
  rw [hcnt2] at hcnt
  rw [hcnt]

lemma valid_colPositions {s : KState} (hv : Valid s) (p : Nat) :
    Contiguous (colPositions s p) := by
  by_cases hp : p ∈ s.columns.map (fun c => c.projectId)
  · exact hv.1 p hp
  · have hnil : colPositions s p = [] := by
      unfold colPositions
      rw [List.filter_eq_nil_iff.mpr]
      · rfl
      · intro c hc hcp
        exact hp (List.mem_map.mpr ⟨c, hc, by simpa using hcp⟩)
    rw [hnil]
    exact List.Perm.refl _

lemma valid_taskPositions {s : KState} (hv : Valid s) (c : Nat) :
    Contiguous (taskPositions s c) := by
  by_cases hc : c ∈ s.tasks.map (fun t => t.columnId)
  · exact hv.2.1 c hc
  · have hnil : taskPositions s c = [] := by
      unfold taskPositions
      rw [List.filter_eq_nil_iff.mpr]
      · rfl
      · intro t ht htc
        exact hc (List.mem_map.mpr ⟨t, ht, by simpa using htc⟩)
    rw [hnil]
    exact List.Perm.refl _

lemma createColumn_ok_inv {s : KState} {ctx : Ctx} {projectId : Nat}
    {title : String} {position : Int} {s' : KState}
    (h : createColumn s ctx projectId title position = .ok s') :
    ¬ position < 1 ∧
    s' = { s with
            columns := s.columns.map (fun c =>
              if c.projectId == projectId && position.toNat ≤ c.position
              then { c with position := c.position + 1 } else c) ++
              [{ id := s.nextId, projectId := projectId, title := strTrim title,
                 position := position.toNat }],
            nextId := s.nextId + 1,
            activity := { action := "COLUMN_CREATED", actorId := ctxUserId ctx,
                          projectId := projectId, taskId := none }
              :: s.activity } := by
  unfold createColumn at h
  split at h
  · simp at h
  · split at h
    · simp at h
    · split at h
      · simp at h
      · rename_i hpos
        injection h with h
        exact ⟨hpos, h.symm⟩

lemma createTask_ok_inv {s : KState} {ctx : Ctx} {columnId : Nat}
    {title : String} {d : Option String} {dd : Option Nat} {a : Option Nat}
    {s' : KState}
    (h : createTask s ctx columnId title d dd a = .ok s') :
    ∃ projectId, getProjectIdByColumnId s columnId = .ok projectId ∧
    s' = { s with
            tasks := s.tasks ++
              [{ id := s.nextId, columnId := columnId, title := strTrim title,
                 description := normOptStr d, dueDate := dd,
                 status := TaskStatus.TODO, creatorId := ctxUserId ctx,
                 assigneeId := a,
                 position := ((s.tasks.filter (fun t => t.columnId == columnId)).map
                   (fun t => t.position)).foldr max 0 + 1 }],
            nextId := s.nextId + 1,
            activity := { action := "TASK_CREATED", actorId := ctxUserId ctx,
                          projectId := projectId, taskId := some s.nextId }
              :: s.activity } := by
  unfold createTask at h
  split at h
  · simp at h
  · rename_i projectId hres
    split at h
    · simp at h
    · split at h
      · simp at h
      · split at h
        · simp at h
        · injection h with h
          exact ⟨projectId, hres, h.symm⟩

lemma moveTask_ok_inv {s : KState} {ctx : Ctx} {taskId toColumnId : Nat}
    {toPosition : Int} {s' : KState}
    (h : moveTask s ctx taskId toColumnId toPosition = .ok s') :
    ∃ fromProjectId task,
      getProjectIdByTaskId s taskId = .ok fromProjectId ∧
      getProjectIdByColumnId s toColumnId = .ok fromProjectId ∧
      findTask s taskId = some task ∧ ¬ toPosition < 1 ∧
      s' = { s with
              tasks := applyPosUpdates (renumberUpdates 1 (sortByPos
                ((setTaskColumnPos taskId toColumnId toPosition.toNat
                  (shiftTargetTasks toColumnId toPosition.toNat s.tasks)).filter
                    (fun t => t.columnId == task.columnId))))
                (setTaskColumnPos taskId toColumnId toPosition.toNat
                  (shiftTargetTasks toColumnId toPosition.toNat s.tasks)),
              activity := { action := "TASK_MOVED", actorId := ctxUserId ctx,
                            projectId := fromProjectId, taskId := some taskId }
                :: s.activity } := by
  unfold moveTask at h
  split at h
  · simp at h
  · rename_i fromProjectId hres1
    split at h
    · simp at h
    · rename_i toProjectId hres2
      split at h
      · simp at h
      · rename_i hne
        split at h
        · simp at h
        · split at h
          · simp at h
          · rename_i hpos
            split at h
            · simp at h
            · rename_i task htask
              injection h with h
              have hpp : toProjectId = fromProjectId := (not_not.mp hne).symm
              subst hpp
              exact ⟨toProjectId, task, hres1, hres2, htask, hpos, h.symm⟩

lemma filter_shift_columns (cols : List Column) (p P : Nat) :
    ((cols.map (fun c => if c.projectId == p && P ≤ c.position
        then { c with position := c.position + 1 } else c)).filter
      (fun c => c.projectId == p)).map (fun c => c.position)
    = ((cols.filter (fun c => c.projectId == p)).map (fun c => c.position)).map
        (fun x => if P ≤ x then x + 1 else x) := by
  rw [List.filter_map]
  have hpred : ∀ c ∈ cols, ((fun c : Column => c.projectId == p) ∘ (fun c =>
      if c.projectId == p && P ≤ c.position
      then { c with position := c.position + 1 } else c)) c
      = (fun c : Column => c.projectId == p) c := by
    intro c _
    simp only [Function.comp_apply]
    split <;> rfl
  rw [List.filter_congr hpred, List.map_map, List.map_map]
  apply List.map_congr_left
  intro c hc
  have hcp : (c.projectId == p) = true := (List.mem_filter.mp hc).2
  simp only [Function.comp_apply, hcp, Bool.true_and, decide_eq_true_eq]
  split
  · rfl
  · rfl

lemma filter_shift_columns_ne (cols : List Column) (p p' P : Nat) (hne : p' ≠ p) :
    ((cols.map (fun c => if c.projectId == p && P ≤ c.position
        then { c with position := c.position + 1 } else c)).filter
      (fun c => c.projectId == p')).map (fun c => c.position)
    = (cols.filter (fun c => c.projectId == p')).map (fun c => c.position) := by
  rw [List.filter_map]
  have hpred : ∀ c ∈ cols, ((fun c : Column => c.projectId == p') ∘ (fun c =>
      if c.projectId == p && P ≤ c.position
      then { c with position := c.position + 1 } else c)) c
      = (fun c : Column => c.projectId == p') c := by
    intro c _
    simp only [Function.comp_apply]
    split <;> rfl
  rw [List.filter_congr hpred, List.map_map]
  apply List.map_congr_left
  intro c hc
  have hcp : (c.projectId == p') = true := (List.mem_filter.mp hc).2
  have hcpne : (c.projectId == p) = false := by
    have : c.projectId = p' := by simpa using hcp
    simp [this, hne]
  simp only [Function.comp_apply, hcpne, Bool.false_and]
  rfl

lemma createColumn_preserves_valid {s : KState} {ctx : Ctx} {projectId : Nat}
    {title : String} {position : Int} {s' : KState}
    (hv : Valid s)
    (hrange : position.toNat ≤ (colPositions s projectId).length + 1)
    (h : createColumn s ctx projectId title position = .ok s') : Valid s' := by
  obtain ⟨hpos, rfl⟩ := createColumn_ok_inv h
  have hP1 : 1 ≤ position.toNat := by omega
  set P := position.toNat with hPdef
  refine ⟨?_, ?_, ?_, ?_, ?_, ?_, ?_⟩
  · intro p' _
    by_cases hp : p' = projectId
    · subst hp
      have heq : colPositions { s with
            columns := s.columns.map (fun c =>
              if c.projectId == p' && P ≤ c.position
              then { c with position := c.position + 1 } else c) ++
              [{ id := s.nextId, projectId := p', title := strTrim title,
                 position := P }],
            nextId := s.nextId + 1,
            activity := { action := "COLUMN_CREATED", actorId := ctxUserId ctx,
                          projectId := p', taskId := none } :: s.activity } p'
          = (colPositions s p').map (fun x => if P ≤ x then x + 1 else x) ++ [P] := by
        unfold colPositions
        rw [List.filter_append, List.map_append, filter_shift_columns]
        congr 1
        simp
      rw [heq]
      apply contiguous_of_perm_range'
      refine (List.perm_append_singleton P _).trans ?_
      exact shift_insert_perm hP1 hrange (valid_colPositions hv p')
    · have heq : colPositions { s with
            columns := s.columns.map (fun c =>
              if c.projectId == projectId && P ≤ c.position
              then { c with position := c.position + 1 } else c) ++
              [{ id := s.nextId, projectId := projectId, title := strTrim title,
                 position := P }],
            nextId := s.nextId + 1,
            activity := { action := "COLUMN_CREATED", actorId := ctxUserId ctx,
                          projectId := projectId, taskId := none } :: s.activity } p'
          = colPositions s p' := by
        unfold colPositions
        rw [List.filter_append, List.map_append, filter_shift_columns_ne _ _ _ _ hp]
        simp [Ne.symm hp]
      rw [heq]
      exact valid_colPositions hv p'
  · intro c _
    exact valid_taskPositions hv c
  · exact hv.2.2.1
  · intro t ht
    obtain ⟨c0, hc0, hc0id⟩ := hv.2.2.2.1 t ht
    refine ⟨if c0.projectId == projectId && P ≤ c0.position
            then { c0 with position := c0.position + 1 } else c0, ?_, ?_⟩
    · apply List.mem_append.mpr
      exact Or.inl (List.mem_map.mpr ⟨c0, hc0, rfl⟩)
    · split <;> exact hc0id
  · intro t ht
    exact Nat.lt_trans (hv.2.2.2.2.1 t ht) (Nat.lt_succ_self _)
  · intro c hc
    rcases List.mem_append.mp hc with hc' | hc'
    · obtain ⟨c0, hc0, hc0eq⟩ := List.mem_map.mp hc'
      have hid : c.id = c0.id := by
        rw [← hc0eq]
        split <;> rfl
      rw [hid]
      exact Nat.lt_trans (hv.2.2.2.2.2.1 c0 hc0) (Nat.lt_succ_self _)
    · have hceq := List.mem_singleton.mp hc'
      rw [hceq]
      exact Nat.lt_succ_self _
  · exact hv.2.2.2.2.2.2

lemma findTask_some_inv {s : KState} {taskId : Nat} {t : Task}
    (h : findTask s taskId = some t) : t ∈ s.tasks ∧ t.id = taskId := by
  refine ⟨List.mem_of_find?_eq_some h, ?_⟩
  have := List.find?_some h
  simpa using this

lemma shiftTargetTasks_map_id (c P : Nat) (ts : List Task) :
    (shiftTargetTasks c P ts).map (fun t => t.id) = ts.map (fun t => t.id) := by
  unfold shiftTargetTasks
  rw [List.map_map]
  apply List.map_congr_left
  intro t _
  simp only [Function.comp_apply]
  split <;> rfl

lemma setTaskColumnPos_map_id (i c P : Nat) (ts : List Task) :
    (setTaskColumnPos i c P ts).map (fun t => t.id) = ts.map (fun t => t.id) := by
  unfold setTaskColumnPos
  rw [List.map_map]
  apply List.map_congr_left
  intro t _
  simp only [Function.comp_apply]
  split <;> rfl

lemma applyPosUpdates_map_id (ups : List (Nat × Nat)) (ts : List Task) :
    (applyPosUpdates ups ts).map (fun t => t.id) = ts.map (fun t => t.id) := by
  rw [applyPosUpdates_eq_map, List.map_map]
  apply List.map_congr_left
  intro t _
  simp only [Function.comp_apply, applyUps_id]

lemma createTask_preserves_valid {s : KState} {ctx : Ctx} {columnId : Nat}
    {title : String} {d : Option String} {dd : Option Nat} {a : Option Nat}
    {s' : KState}
    (hv : Valid s)
    (h : createTask s ctx columnId title d dd a = .ok s') : Valid s' := by
  obtain ⟨projectId, hres, rfl⟩ := createTask_ok_inv h
  obtain ⟨col, hcol, hcolid⟩ := getProjectIdByColumnId_ok_inv hres
  have hcolmem : col ∈ s.columns := List.mem_of_find?_eq_some hcol
  have hcolid2 : col.id = columnId := by
    have := List.find?_some hcol
    simpa using this
  refine ⟨?_, ?_, ?_, ?_, ?_, ?_, ?_⟩
  · intro p' _
    exact valid_colPositions hv p'
  · intro c _
    have hcont : ∀ c', Contiguous (taskPositions { s with
        tasks := s.tasks ++
          [{ id := s.nextId, columnId := columnId, title := strTrim title,
             description := normOptStr d, dueDate := dd,
             status := TaskStatus.TODO, creatorId := ctxUserId ctx,
             assigneeId := a,
             position := ((s.tasks.filter (fun t => t.columnId == columnId)).map
               (fun t => t.position)).foldr max 0 + 1 }],
        nextId := s.nextId + 1,
        activity := { action := "TASK_CREATED", actorId := ctxUserId ctx,
                      projectId := projectId, taskId := some s.nextId }
          :: s.activity } c') := by
      intro c'
      have hl := valid_taskPositions hv c'
      by_cases hc' : c' = columnId
      · subst hc'
        have hmax := foldr_max_of_perm hl
        unfold taskPositions at *
        rw [List.filter_append, List.map_append]
        have hsing : ∀ x : Task, x.columnId = c' →
            List.filter (fun t => t.columnId == c') [x] = [x] := by
          intro x hx
          simp [List.filter, hx]
        rw [hsing _ rfl]
        apply contiguous_of_perm_range'
        rw [hmax]
        have hconcat : List.range' 1
            (((s.tasks.filter (fun t => t.columnId == c')).map
              (fun t => t.position)).length + 1)
            = List.range' 1 ((s.tasks.filter (fun t => t.columnId == c')).map
              (fun t => t.position)).length ++
              [((s.tasks.filter (fun t => t.columnId == c')).map
                (fun t => t.position)).length + 1] := by
          rw [List.range'_concat]
          congr 1
          simp
          omega
        have happ := hl.append_right
          [((s.tasks.filter (fun t => t.columnId == c')).map
            (fun t => t.position)).length + 1]
        simp only [List.map_cons, List.map_nil] at *
        refine happ.trans ?_
        rw [← hconcat]
      · unfold taskPositions at *
        rw [List.filter_append, List.map_append]
        have hsing : List.filter (fun t => t.columnId == c')
            [({ id := s.nextId, columnId := columnId, title := strTrim title,
                description := normOptStr d, dueDate := dd,
                status := TaskStatus.TODO, creatorId := ctxUserId ctx,
                assigneeId := a,
                position := ((s.tasks.filter (fun t => t.columnId == columnId)).map
                  (fun t => t.position)).foldr max 0 + 1 } : Task)] = [] := by
          simp [Ne.symm hc']
        rw [hsing]
        simpa using hl
    exact hcont c
  · rw [List.map_append, List.nodup_append]
    refine ⟨hv.2.2.1, by simp, ?_⟩
    intro x hx hy
    simp only [List.map_cons, List.map_nil, List.mem_singleton] at hy
    obtain ⟨t0, ht0, ht0id⟩ := List.mem_map.mp hx
    have := hv.2.2.2.2.1 t0 ht0
    omega
  · intro t ht
    rcases List.mem_append.mp ht with ht' | ht'
    · exact hv.2.2.2.1 t ht'
    · have hteq := List.mem_singleton.mp ht'
      refine ⟨col, hcolmem, ?_⟩
      rw [hteq]
      exact hcolid2
  · intro t ht
    rcases List.mem_append.mp ht with ht' | ht'
    · exact Nat.lt_trans (hv.2.2.2.2.1 t ht') (Nat.lt_succ_self _)
    · have hteq := List.mem_singleton.mp ht'
      rw [hteq]
      exact Nat.lt_succ_self _
  · intro c hc
    exact Nat.lt_trans (hv.2.2.2.2.2.1 c hc) (Nat.lt_succ_self _)
  · exact hv.2.2.2.2.2.2

lemma applyPosUpdates_filter_other (c d : Nat) (ts2 : List Task) (hdc : d ≠ c)
    (hids : (ts2.map (fun t => t.id)).Nodup) :
    (applyPosUpdates (renumberUpdates 1 (sortByPos
        (ts2.filter (fun t => t.columnId == c)))) ts2).filter
      (fun t => t.columnId == d)
    = ts2.filter (fun t => t.columnId == d) := by
  rw [applyPosUpdates_eq_map, filter_map_applyUps]
  have hkeys : (renumberUpdates 1 (sortByPos
      (ts2.filter (fun t => t.columnId == c)))).map Prod.fst
      = (sortByPos (ts2.filter (fun t => t.columnId == c))).map (fun t => t.id) :=
    renumberUpdates_fst _ _
  have hcong : ∀ t ∈ ts2.filter (fun t => t.columnId == d),
      applyUps (renumberUpdates 1 (sortByPos
        (ts2.filter (fun t => t.columnId == c)))) t = t := by
    intro t htd
    apply applyUps_of_not_mem
    rw [hkeys]
    intro hmem
    have hmem2 : t.id ∈ (ts2.filter (fun t => t.columnId == c)).map
        (fun t => t.id) :=
      ((sortByPos_perm _).map _).mem_iff.mp hmem
    obtain ⟨u, hu, huid⟩ := List.mem_map.mp hmem2
    have hut : u = t := List.inj_on_of_nodup_map hids
      (List.mem_of_mem_filter hu) (List.mem_of_mem_filter htd) huid
    have hc1 : u.columnId = c := by simpa using (List.mem_filter.mp hu).2
    have hd1 : t.columnId = d := by simpa using (List.mem_filter.mp htd).2
    rw [hut] at hc1
    omega
  rw [List.map_congr_left hcong]
  exact List.map_id' _

lemma setShift_filter_target (ts : List Task) (task : Task) (taskId ct P : Nat)
    (hids : (ts.map (fun t => t.id)).Nodup)
    (htmem : task ∈ ts) (htid : task.id = taskId)
    (hct : task.columnId ≠ ct) :
    (((setTaskColumnPos taskId ct P (shiftTargetTasks ct P ts)).filter
      (fun t => t.columnId == ct)).map (fun t => t.position)).Perm
    (P :: ((ts.filter (fun t => t.columnId == ct)).map
        (fun t => t.position)).map (fun x => if P ≤ x then x + 1 else x)) := by
  have hnd : ts.Nodup := List.Nodup.of_map _ hids
  have hperm0 : ts.Perm (task :: ts.erase task) := List.perm_cons_erase htmem
  rw [setTaskColumnPos, shiftTargetTasks, List.map_map]
  set F := (fun t : Task =>
    if t.id == taskId then { t with columnId := ct, position := P } else t) ∘
    (fun t : Task =>
      if t.columnId == ct && P ≤ t.position
      then { t with position := t.position + 1 } else t) with hFdef
  have hc0 : (task.columnId == ct && decide (P ≤ task.position)) = false := by
    simp [hct]
  have hFtask : F task = { task with columnId := ct, position := P } := by
    rw [hFdef]
    simp only [Function.comp_apply, hc0, Bool.false_eq_true, if_false]
    rw [if_pos (by simpa using htid)]
  have hFother : ∀ u ∈ ts.erase task, F u =
      (if u.columnId == ct && P ≤ u.position
       then { u with position := u.position + 1 } else u) := by
    intro u hu
    have hune : u ≠ task := (hnd.mem_erase_iff.mp hu).1
    have humem : u ∈ ts := (hnd.mem_erase_iff.mp hu).2
    have huid : u.id ≠ taskId := by
      intro he
      exact hune (List.inj_on_of_nodup_map hids humem htmem (he.trans htid.symm))
    rw [hFdef]
    simp only [Function.comp_apply]
    have hid2 : ((if u.columnId == ct && P ≤ u.position
        then { u with position := u.position + 1 } else u).id == taskId) = false := by
      split <;> simpa using huid
    rw [if_neg (by rw [hid2]; simp)]

  have hstep1 : ((ts.map F).filter (fun t => t.columnId == ct)).Perm
      (((task :: ts.erase task).map F).filter (fun t => t.columnId == ct)) :=
    List.Perm.filter _ (hperm0.map F)
  have hstep2 : ((task :: ts.erase task).map F).filter (fun t => t.columnId == ct)
      = F task :: ((ts.erase task).map F).filter (fun t => t.columnId == ct) := by
    rw [List.map_cons, List.filter_cons, if_pos]
    rw [hFtask]
    simp
  have hstep3 : ((ts.erase task).map F).filter (fun t => t.columnId == ct)
      = ((ts.erase task).filter (fun t => t.columnId == ct)).map F := by
    rw [List.filter_map]
    congr 1
    apply List.filter_congr
    intro u hu
    simp only [Function.comp_apply]
    rw [hFother u hu]
    split <;> rfl
  have hstep4 : (((ts.erase task).filter (fun t => t.columnId == ct)).map F).map
      (fun t => t.position)
      = (((ts.erase task).filter (fun t => t.columnId == ct)).map
          (fun t => t.position)).map (fun x => if P ≤ x then x + 1 else x) := by
    rw [List.map_map, List.map_map]
    apply List.map_congr_left
    intro u hu
    have huc : (u.columnId == ct) = true := (List.mem_filter.mp hu).2
    have hu' : u ∈ ts.erase task := List.mem_of_mem_filter hu
    simp only [Function.comp_apply]
    rw [hFother u hu']
    simp only [huc, Bool.true_and, decide_eq_true_eq]
    split <;> rfl
  have hstep5 : (((ts.erase task).filter (fun t => t.columnId == ct)).map
      (fun t => t.position)).Perm
      ((ts.filter (fun t => t.columnId == ct)).map (fun t => t.position)) := by
    apply List.Perm.map
    have h5 := List.Perm.filter (fun t : Task => t.columnId == ct) hperm0
    rw [List.filter_cons, if_neg (by simp [hct])] at h5
    exact h5.symm
  have hp2 : (((task :: ts.erase task).map F).filter
      (fun t => t.columnId == ct)).Perm
      (F task :: ((ts.erase task).filter (fun t => t.columnId == ct)).map F) := by
    rw [hstep2, hstep3]
  have hmapped := (hstep1.trans hp2).map (fun t => t.position)
  rw [List.map_cons, hstep4] at hmapped
  refine hmapped.trans ?_
  rw [hFtask]
  exact ((hstep5.map _).cons P)

lemma setShift_filter_other (ts : List Task) (task : Task) (taskId ct P d : Nat)
    (hids : (ts.map (fun t => t.id)).Nodup)
    (htmem : task ∈ ts) (htid : task.id = taskId)
    (hd1 : d ≠ ct) (hd2 : d ≠ task.columnId) :
    (setTaskColumnPos taskId ct P (shiftTargetTasks ct P ts)).filter
      (fun t => t.columnId == d)
    = ts.filter (fun t => t.columnId == d) := by
  rw [setTaskColumnPos, shiftTargetTasks, List.map_map]
  set F := (fun t : Task =>
    if t.id == taskId then { t with columnId := ct, position := P } else t) ∘
    (fun t : Task =>
      if t.columnId == ct && P ≤ t.position
      then { t with position := t.position + 1 } else t) with hFdef
  have hpred : ∀ t ∈ ts, ((fun t : Task => t.columnId == d) ∘ F) t
      = (fun t : Task => t.columnId == d) t := by
    intro t ht
    by_cases hid : t.id = taskId
    · have hteq : t = task :=
        List.inj_on_of_nodup_map hids ht htmem (hid.trans htid.symm)
      have hFc : (F t).columnId = ct := by
        rw [hFdef]
        simp only [Function.comp_apply]
        split
        · rw [if_pos (by simpa using hid)]
        · rw [if_pos (by simpa using hid)]
      have h1 : ((F t).columnId == d) = false := by
        rw [hFc]
        simpa using Ne.symm hd1
      have h2 : (t.columnId == d) = false := by
        rw [hteq]
        simpa using fun he => hd2 he.symm
      simp only [Function.comp_apply, h1, h2]
    · have hFc : (F t).columnId = t.columnId := by
        rw [hFdef]
        simp only [Function.comp_apply]
        split
        · rw [if_neg (by simpa using hid)]
        · rw [if_neg (by simpa using hid)]
      simp only [Function.comp_apply, hFc]
  rw [List.filter_map, List.filter_congr hpred]
  have hFid : ∀ t ∈ ts.filter (fun t => t.columnId == d), F t = t := by
    intro t ht
    have htd : t.columnId = d := by simpa using (List.mem_filter.mp ht).2
    have htmem2 : t ∈ ts := List.mem_of_mem_filter ht
    have hid : t.id ≠ taskId := by
      intro he
      have hteq : t = task :=
        List.inj_on_of_nodup_map hids htmem2 htmem (he.trans htid.symm)
      apply hd2
      rw [← hteq, htd]
    have hshiftc : (t.columnId == ct && decide (P ≤ t.position)) = false := by
      have hne : t.columnId ≠ ct := by
        rw [htd]
        exact hd1
      simp [hne]
    have hid2 : ((if t.columnId == ct && P ≤ t.position
        then { t with position := t.position + 1 } else t).id == taskId) = false := by
      split <;> simpa using hid
    rw [hFdef]
    simp only [Function.comp_apply]
    rw [if_neg (by rw [hid2]; simp)]
    simp [hshiftc]
  rw [List.map_congr_left hFid]
  exact List.map_id' _

lemma moveTask_preserves_valid {s : KState} {ctx : Ctx} {taskId toColumnId : Nat}
    {toPosition : Int} {s' : KState}
    (hv : Valid s)
    (hrange : toPosition.toNat ≤ (taskPositions s toColumnId).length + 1)
    (h : moveTask s ctx taskId toColumnId toPosition = .ok s') : Valid s' := by
  obtain ⟨fp, task, hres1, hres2, htask, hpos, rfl⟩ := moveTask_ok_inv h
  obtain ⟨htmem, htid⟩ := findTask_some_inv htask
  obtain ⟨tcol, htcol, htcolpid⟩ := getProjectIdByColumnId_ok_inv hres2
  have htcolmem : tcol ∈ s.columns := List.mem_of_find?_eq_some htcol
  have htcolid : tcol.id = toColumnId := by
    have := List.find?_some htcol
    simpa using this
  set P := toPosition.toNat with hPdef
  have hP1 : 1 ≤ P := by omega
  set ts2 := setTaskColumnPos taskId toColumnId P
    (shiftTargetTasks toColumnId P s.tasks) with hts2
  set ts3 := applyPosUpdates (renumberUpdates 1 (sortByPos
    (ts2.filter (fun t => t.columnId == task.columnId)))) ts2 with hts3
  have hids2 : (ts2.map (fun t => t.id)).Nodup := by
    rw [hts2, setTaskColumnPos_map_id, shiftTargetTasks_map_id]
    exact hv.2.2.1
  have hids3 : ts3.map (fun t => t.id) = s.tasks.map (fun t => t.id) := by
    rw [hts3, applyPosUpdates_map_id, hts2, setTaskColumnPos_map_id,
      shiftTargetTasks_map_id]
  refine ⟨?_, ?_, ?_, ?_, ?_, ?_, ?_⟩
  · intro p' _
    exact valid_colPositions hv p'
  · intro d _
    show Contiguous ((ts3.filter (fun t => t.columnId == d)).map
      (fun t => t.position))
    by_cases hdc : d = task.columnId
    · rw [hdc]
      exact contiguous_of_perm_range'
        (compaction_positions task.columnId ts2 hids2)
    · by_cases hdt : d = toColumnId
      · have hct : task.columnId ≠ toColumnId := fun he =>
          hdc (hdt.trans he.symm)
        rw [hdt]
        have h31 : ts3.filter (fun t => t.columnId == toColumnId)
            = ts2.filter (fun t => t.columnId == toColumnId) := by
          rw [hts3]
          exact applyPosUpdates_filter_other task.columnId toColumnId ts2
            (fun he => hdc (hdt.trans he)) hids2
        rw [h31, hts2]
        have h32 := setShift_filter_target s.tasks task taskId toColumnId P
          hv.2.2.1 htmem htid hct
        exact contiguous_of_perm_range'
          (h32.trans (shift_insert_perm hP1 hrange
            (valid_taskPositions hv toColumnId)))
      · have h31 : ts3.filter (fun t => t.columnId == d)
            = ts2.filter (fun t => t.columnId == d) := by
          rw [hts3]
          exact applyPosUpdates_filter_other task.columnId d ts2 hdc hids2
        have h21 : ts2.filter (fun t => t.columnId == d)
            = s.tasks.filter (fun t => t.columnId == d) := by
          rw [hts2]
          exact setShift_filter_other s.tasks task taskId toColumnId P d
            hv.2.2.1 htmem htid hdt hdc
        rw [h31, h21]
        exact valid_taskPositions hv d
  · show (ts3.map (fun t => t.id)).Nodup
    rw [hids3]
    exact hv.2.2.1
  · intro t ht
    have ht3 : t ∈ ts3 := ht
    rw [hts3, applyPosUpdates_eq_map] at ht3
    obtain ⟨t2, ht2, heq2⟩ := List.mem_map.mp ht3
    rw [hts2, setTaskColumnPos, shiftTargetTasks, List.map_map] at ht2
    obtain ⟨t0, ht0, heq0⟩ := List.mem_map.mp ht2
    have hcol2 : t2.columnId = toColumnId ∨ t2.columnId = t0.columnId := by
      rw [← heq0]
      simp only [Function.comp_apply]
      by_cases hid0 : t0.id = taskId
      · left
        split
        · rw [if_pos (by simpa using hid0)]
        · rw [if_pos (by simpa using hid0)]
      · right
        split
        · rw [if_neg (by simpa using hid0)]
        · rw [if_neg (by simpa using hid0)]
    have htcolumn : t.columnId = t2.columnId := by
      rw [← heq2]
      exact applyUps_columnId _ t2
    rcases hcol2 with hc2 | hc2
    · exact ⟨tcol, htcolmem, by rw [htcolid, htcolumn, hc2]⟩
    · obtain ⟨col0, hcol0, hcol0id⟩ := hv.2.2.2.1 t0 ht0
      exact ⟨col0, hcol0, by rw [hcol0id, htcolumn, hc2]⟩
  · intro t ht
    have hmem : t.id ∈ ts3.map (fun t => t.id) := List.mem_map.mpr ⟨t, ht, rfl⟩
    rw [hids3] at hmem
    obtain ⟨t0, ht0, hid0⟩ := List.mem_map.mp hmem
    show t.id < s.nextId
    rw [← hid0]
    exact hv.2.2.2.2.1 t0 ht0
  · intro c hc
    exact hv.2.2.2.2.2.1 c hc
  · exact hv.2.2.2.2.2.2

/-- C1 (amended): starting from a valid state, every sequence of the
ordered-collection operations (createColumn, createTask, moveTask) whose
explicit position argument stays within 1..count+1 of its target scope
keeps, in every project, the set of column positions and, in every column,
the set of task positions exactly {1..count} — no gaps, no duplicates.
The restriction is necessary: the resolvers accept positions beyond
count + 1 and those leave a gap (see the counterexample). -/
theorem ordered_ops_preserve_contiguity (s s' : KState)
    (hv : Valid s) (hreach : OCReach s s') : PosInvariant s' := by
  have hval : Valid s' := by
    induction hreach with
    | refl => exact hv
    | tail s2 s3 hr hstep ih =>
      cases hstep with
      | createColumn ctx pid ti pos hrange hok =>
        exact createColumn_preserves_valid ih hrange hok
      | createTask ctx cid ti d dd a hok =>
        exact createTask_preserves_valid ih hok
      | moveTask ctx tid cid pos hrange hok =>
        exact moveTask_preserves_valid ih hrange hok
  exact ⟨hval.1, hval.2.1⟩

/-- C1 witness: inserting a column at position 2 (in range) of project 100
keeps every scope's positions exactly {1..count}. -/
theorem ordered_ops_preserve_contiguity_witness : PosInvariant s0C :=
  ordered_ops_preserve_contiguity s0 s0C (by decide)
    (OCReach.tail s0 s0 s0C (OCReach.refl s0)
      (OCStep.createColumn s0 s0C ctxOwner 100 "Review" 2 (by decide) rfl))

/-- C1 counterexample: from the valid fixture state, one accepted
`createColumn` at position 10 (the project has 2 columns) produces column
positions {1, 2, 10} — a gap, not {1..3} — so the invariant does not hold
after every accepted operation sequence. -/
theorem createColumn_gap_counterexample :
    Valid s0 ∧
    (applyOp (.createColumn 100 "X" 10) ctxOwner s0).isOk = true ∧
    colPositions (okState (applyOp (.createColumn 100 "X" 10) ctxOwner s0) s0) 100
      = [1, 2, 10] ∧
    ¬ Contiguous [1, 2, 10] :=
  ⟨by decide, rfl, rfl, by decide⟩

lemma find?_id_of_mem {ts : List Task} (hids : (ts.map (fun t => t.id)).Nodup)
    {t : Task} (ht : t ∈ ts) : ts.find? (fun u => u.id == t.id) = some t := by
  cases hf : ts.find? (fun u => u.id == t.id) with
  | none =>
    rw [List.find?_eq_none] at hf
    exact absurd (by simp : (t.id == t.id) = true) (by simpa using hf t ht)
  | some u =>
    have hu := List.mem_of_find?_eq_some hf
    have hup : u.id = t.id := by simpa using List.find?_some hf
    rw [List.inj_on_of_nodup_map hids hu ht hup]

lemma find?_id_map (f : Task → Task) (hf : ∀ t, (f t).id = t.id)
    (ts : List Task) (i : Nat) :
    (ts.map f).find? (fun u => u.id == i)
      = (ts.find? (fun u => u.id == i)).map f := by
  rw [List.find?_map]
  have hfun : ((fun u : Task => u.id == i) ∘ f) = (fun u : Task => u.id == i) :=
    funext fun u => by rw [Function.comp_apply, hf u]
  rw [hfun]

lemma countP_lt_strict (L : List Nat) (a b : Nat) (hab : a < b) (ha : a ∈ L) :
    L.countP (fun x => decide (x < a)) < L.countP (fun x => decide (x < b)) := by
  have hperm := List.perm_cons_erase ha
  rw [hperm.countP_eq (fun x => decide (x < a)),
    hperm.countP_eq (fun x => decide (x < b))]
  rw [List.countP_cons, List.countP_cons]
  have h1 : (decide (a < a)) = false := by simp
  have h2 : (decide (a < b)) = true := by simpa using hab
  rw [h1, h2]
  have hmono : (L.erase a).countP (fun x => decide (x < a))
      ≤ (L.erase a).countP (fun x => decide (x < b)) := by
    apply List.countP_mono_left
    intro x _ hxa
    simp only [decide_eq_true_eq] at *
    omega
  simp only [Bool.false_eq_true, if_false, if_true]
  omega

lemma setShift_filter_same_perm (ts : List Task) (task : Task) (taskId P : Nat)
    (hids : (ts.map (fun t => t.id)).Nodup)
    (htmem : task ∈ ts) (htid : task.id = taskId) :
    (((setTaskColumnPos taskId task.columnId P
        (shiftTargetTasks task.columnId P ts)).filter
      (fun t => t.columnId == task.columnId)).map (fun t => t.position)).Perm
    (P :: (((ts.erase task).filter (fun t => t.columnId == task.columnId)).map
        (fun t => t.position)).map (fun x => if P ≤ x then x + 1 else x)) := by
  have hnd : ts.Nodup := List.Nodup.of_map _ hids
  have hperm0 : ts.Perm (task :: ts.erase task) := List.perm_cons_erase htmem
  rw [setTaskColumnPos, shiftTargetTasks, List.map_map]
  set ct := task.columnId with hctdef
  set F := (fun t : Task =>
    if t.id == taskId then { t with columnId := ct, position := P } else t) ∘
    (fun t : Task =>
      if t.columnId == ct && P ≤ t.position
      then { t with position := t.position + 1 } else t) with hFdef
  have hFtask : F task = { task with columnId := ct, position := P } := by
    rw [hFdef]
    simp only [Function.comp_apply]
    split
    · rw [if_pos (by simpa using htid)]
    · rw [if_pos (by simpa using htid)]
  have hFother : ∀ u ∈ ts.erase task, F u =
      (if u.columnId == ct && P ≤ u.position
       then { u with position := u.position + 1 } else u) := by
    intro u hu
    have hune : u ≠ task := (hnd.mem_erase_iff.mp hu).1
    have humem : u ∈ ts := (hnd.mem_erase_iff.mp hu).2
    have huid : u.id ≠ taskId := by
      intro he
      exact hune (List.inj_on_of_nodup_map hids humem htmem (he.trans htid.symm))
    rw [hFdef]
    simp only [Function.comp_apply]
    have hid2 : ((if u.columnId == ct && P ≤ u.position
        then { u with position := u.position + 1 } else u).id == taskId) = false := by
      split <;> simpa using huid
    rw [if_neg (by rw [hid2]; simp)]
  have hstep1 : ((ts.map F).filter (fun t => t.columnId == ct)).Perm
      (((task :: ts.erase task).map F).filter (fun t => t.columnId == ct)) :=
    List.Perm.filter _ (hperm0.map F)
  have hstep2 : ((task :: ts.erase task).map F).filter (fun t => t.columnId == ct)
      = F task :: ((ts.erase task).map F).filter (fun t => t.columnId == ct) := by
    rw [List.map_cons, List.filter_cons, if_pos]
    rw [hFtask]
    simp
  have hstep3 : ((ts.erase task).map F).filter (fun t => t.columnId == ct)
      = ((ts.erase task).filter (fun t => t.columnId == ct)).map F := by
    rw [List.filter_map]
    congr 1
    apply List.filter_congr
    intro u hu
    simp only [Function.comp_apply]
    rw [hFother u hu]
    split <;> rfl
  have hstep4 : (((ts.erase task).filter (fun t => t.columnId == ct)).map F).map
      (fun t => t.position)
      = (((ts.erase task).filter (fun t => t.columnId == ct)).map
          (fun t => t.position)).map (fun x => if P ≤ x then x + 1 else x) := by
    rw [List.map_map, List.map_map]
    apply List.map_congr_left
    intro u hu
    have huc : (u.columnId == ct) = true := (List.mem_filter.mp hu).2
    have hu' : u ∈ ts.erase task := List.mem_of_mem_filter hu
    simp only [Function.comp_apply]
    rw [hFother u hu']
    simp only [huc, Bool.true_and, decide_eq_true_eq]
    split <;> rfl
  have hp2 : (((task :: ts.erase task).map F).filter
      (fun t => t.columnId == ct)).Perm
      (F task :: ((ts.erase task).filter (fun t => t.columnId == ct)).map F) := by
    rw [hstep2, hstep3]
  have hmapped := (hstep1.trans hp2).map (fun t => t.position)
  rw [List.map_cons, hstep4] at hmapped
  refine hmapped.trans ?_
  rw [hFtask]

lemma countP_pos_map (l : List Task) (Q : Nat → Bool) :
    l.countP (fun t => Q t.position)
      = (l.map (fun t => t.position)).countP Q := by
  rw [List.countP_map]
  rfl

/-- C2 (amended): for a `moveTask` whose target column equals the task's
current column and whose `toPosition` P satisfies 1 ≤ P ≤ count, the call
succeeds and the remaining tasks keep their relative order, but the moved
task's final position equals P only when its current position is ≥ P: moving
towards the tail lands at P − 1, because the shift-in runs against the
pre-removal snapshot and the final compaction then closes the hole the task
left behind. -/
theorem moveTask_same_column_position (s : KState) (ctx : Ctx)
    (taskId : Nat) (toPosition : Int) (task : Task) (col : Column)
    (hv : Valid s)
    (htask : findTask s taskId = some task)
    (hcol : findColumn s task.columnId = some col)
    (hmem : requireProjectMember s ctx col.projectId = .ok ())
    (hP1 : 1 ≤ toPosition)
    (hPn : toPosition.toNat ≤ (taskPositions s task.columnId).length) :
    (moveTask s ctx taskId task.columnId toPosition).isOk = true ∧
    (findTask (okState (moveTask s ctx taskId task.columnId toPosition) s)
        taskId).map (fun t => t.position)
      = some (if toPosition.toNat ≤ task.position then toPosition.toNat
              else toPosition.toNat - 1) ∧
    (∀ t u, t ∈ s.tasks → u ∈ s.tasks →
      t.columnId = task.columnId → u.columnId = task.columnId →
      t.id ≠ taskId → u.id ≠ taskId → t.position < u.position →
      ∀ t' u',
        findTask (okState (moveTask s ctx taskId task.columnId toPosition) s)
          t.id = some t' →
        findTask (okState (moveTask s ctx taskId task.columnId toPosition) s)
          u.id = some u' →
        t'.position < u'.position) := by
  have hids : (s.tasks.map (fun t => t.id)).Nodup := hv.2.2.1
  have htmem : task ∈ s.tasks := List.mem_of_find?_eq_some htask
  have htid : task.id = taskId := by simpa using List.find?_some htask
  set ct := task.columnId with hct
  set P := toPosition.toNat with hPdef
  have hP1' : 1 ≤ P := by rw [hPdef]; omega
  have hres1 : getProjectIdByTaskId s taskId = .ok col.projectId := by
    simp only [getProjectIdByTaskId, htask, hcol]
  have hres2 : getProjectIdByColumnId s ct = .ok col.projectId := by
    simp only [getProjectIdByColumnId, hcol]
  set ts2 := setTaskColumnPos taskId ct P (shiftTargetTasks ct P s.tasks)
    with hts2
  set ups := renumberUpdates 1
    (sortByPos (ts2.filter (fun t => t.columnId == ct))) with hups
  set S' : KState := { s with
    tasks := applyPosUpdates ups ts2,
    activity := { action := "TASK_MOVED", actorId := ctxUserId ctx,
                  projectId := col.projectId, taskId := some taskId }
      :: s.activity } with hSdef
  have hok : moveTask s ctx taskId ct toPosition = .ok S' := by
    simp only [moveTask, hres1, hres2]
    rw [if_neg (fun hne => hne rfl)]
    simp only [hmem]
    rw [if_neg (by omega : ¬ toPosition < 1)]
    simp only [htask]
  have hoks : okState (moveTask s ctx taskId ct toPosition) s = S' := by
    rw [hok]
    rfl
  set sh := (fun t : Task =>
    if t.columnId == ct && decide (P ≤ t.position)
    then { t with position := t.position + 1 } else t) with hshdef
  set st := (fun t : Task =>
    if t.id == taskId then { t with columnId := ct, position := P } else t)
    with hstdef
  have hts2m : ts2 = s.tasks.map (fun t => st (sh t)) := by
    rw [hts2, setTaskColumnPos, shiftTargetTasks, List.map_map]
    rfl
  have hshid : ∀ t : Task, (sh t).id = t.id := by
    intro t
    show (if t.columnId == ct && decide (P ≤ t.position)
      then { t with position := t.position + 1 } else t).id = t.id
    split <;> rfl
  have hstid : ∀ t : Task, (st t).id = t.id := by
    intro t
    show (if t.id == taskId
      then { t with columnId := ct, position := P } else t).id = t.id
    split <;> rfl
  have hshcol : ∀ t : Task, (sh t).columnId = t.columnId := by
    intro t
    show (if t.columnId == ct && decide (P ≤ t.position)
      then { t with position := t.position + 1 } else t).columnId = t.columnId
    split <;> rfl
  have hst_ne : ∀ t : Task, t.id ≠ taskId → st t = t := by
    intro t ht
    show (if t.id == taskId
      then { t with columnId := ct, position := P } else t) = t
    rw [if_neg (by simpa using ht)]
  have hsh_pres : ∀ t : Task,
      sh t = t ∨ sh t = { t with position := t.position + 1 } := by
    intro t
    show (if t.columnId == ct && decide (P ≤ t.position)
        then { t with position := t.position + 1 } else t) = t ∨
      (if t.columnId == ct && decide (P ≤ t.position)
        then { t with position := t.position + 1 } else t)
        = { t with position := t.position + 1 }
    split
    · right; rfl
    · left; rfl
  have hshpos : ∀ t : Task, t.columnId = ct →
      (sh t).position
        = (if P ≤ t.position then t.position + 1 else t.position) := by
    intro t hvc
    show (if t.columnId == ct && decide (P ≤ t.position)
        then { t with position := t.position + 1 } else t).position = _
    have hcb : (t.columnId == ct) = true := by simpa using hvc
    rw [hcb, Bool.true_and]
    by_cases hPv : P ≤ t.position
    · rw [if_pos (by simpa using hPv), if_pos hPv]
    · rw [if_neg (by simpa using hPv), if_neg hPv]
  have hshst_task : st (sh task) = { task with columnId := ct, position := P } := by
    have h1 : st (sh task)
        = { (sh task) with columnId := ct, position := P } := by
      show (if (sh task).id == taskId
          then { (sh task) with columnId := ct, position := P } else (sh task))
        = { (sh task) with columnId := ct, position := P }
      rw [if_pos (by rw [hshid]; simpa using htid)]
    rw [h1]
    rcases hsh_pres task with h | h
    · rw [h]
    · rw [h]
  have hts3 : S'.tasks = ts2.map (applyUps ups) := applyPosUpdates_eq_map ups ts2
  have hcomp_id : ∀ t : Task, ((applyUps ups ∘ fun v => st (sh v)) t).id = t.id := by
    intro t
    rw [Function.comp_apply, applyUps_id, hstid, hshid]
  have hfind : ∀ i : Nat, findTask S' i
      = (s.tasks.find? (fun v => v.id == i)).map
          (fun v => applyUps ups (st (sh v))) := by
    intro i
    show S'.tasks.find? (fun v => v.id == i) = _
    rw [hts3, hts2m, List.map_map,
      find?_id_map (applyUps ups ∘ fun v => st (sh v)) hcomp_id]
    rfl
  have hids2 : (ts2.map (fun t => t.id)).Nodup := by
    rw [hts2m, List.map_map]
    have he : ((fun t : Task => t.id) ∘ fun t => st (sh t))
        = (fun t : Task => t.id) := by
      funext t
      rw [Function.comp_apply, hstid, hshid]
    rw [he]
    exact hids
  set n := (taskPositions s ct).length with hndef
  have hcont : (taskPositions s ct).Perm (List.range' 1 n) :=
    valid_taskPositions hv ct
  have htfil : task ∈ s.tasks.filter (fun t => t.columnId == ct) :=
    List.mem_filter.mpr ⟨htmem, by simp [hct]⟩
  have hq1 : 1 ≤ task.position := by
    have hmemq : task.position ∈ taskPositions s ct :=
      List.mem_map_of_mem (fun t => t.position) htfil
    have hmr := hcont.mem_iff.mp hmemq
    rw [List.mem_range'_1] at hmr
    omega
  set X := ((s.tasks.erase task).filter (fun t => t.columnId == ct)).map
    (fun t => t.position) with hXdef
  have hpermpos : ((ts2.filter (fun t => t.columnId == ct)).map
      (fun t => t.position)).Perm
      (P :: X.map (fun x => if P ≤ x then x + 1 else x)) :=
    setShift_filter_same_perm s.tasks task taskId P hids htmem htid
  have hperm0 : s.tasks.Perm (task :: s.tasks.erase task) :=
    List.perm_cons_erase htmem
  have hfperm : (s.tasks.filter (fun t => t.columnId == ct)).Perm
      (task :: (s.tasks.erase task).filter (fun t => t.columnId == ct)) := by
    have h1 := hperm0.filter (fun t => t.columnId == ct)
    rw [List.filter_cons, if_pos (by simp [hct])] at h1
    exact h1
  have hqperm : (taskPositions s ct).Perm (task.position :: X) := by
    have h1 := hfperm.map (fun t => t.position)
    rw [List.map_cons] at h1
    exact h1
  have htpnd : (taskPositions s ct).Nodup :=
    hcont.nodup_iff.mpr (List.nodup_range' 1 n)
  have hXnd : X.Nodup := (List.nodup_cons.mp (hqperm.nodup_iff.mp htpnd)).2
  have hposNodup : ((ts2.filter (fun t => t.columnId == ct)).map
      (fun t => t.position)).Nodup := by
    rw [hpermpos.nodup_iff, List.nodup_cons]
    constructor
    · rw [List.mem_map]
      rintro ⟨x, hx, hfx⟩
      have hfx' : (if P ≤ x then x + 1 else x) = P := hfx
      by_cases hPx : P ≤ x
      · rw [if_pos hPx] at hfx'; omega
      · rw [if_neg hPx] at hfx'; omega
    · have hinj : Function.Injective
          (fun x : Nat => if P ≤ x then x + 1 else x) := by
        intro a b hab
        have hab' : (if P ≤ a then a + 1 else a)
            = (if P ≤ b then b + 1 else b) := hab
        by_cases ha : P ≤ a <;> by_cases hb : P ≤ b
        · rw [if_pos ha, if_pos hb] at hab'; omega
        · rw [if_pos ha, if_neg hb] at hab'; omega
        · rw [if_neg ha, if_pos hb] at hab'; omega
        · rw [if_neg ha, if_neg hb] at hab'; omega
      exact hXnd.map hinj
  have hcountAll : (taskPositions s ct).countP (fun x => decide (x < P))
      = P - 1 := by
    rw [hcont.countP_eq (fun x => decide (x < P))]
    exact countP_lt_range' P n hP1' (by omega)
  have hXcnt : X.countP (fun x => decide (x < P))
      + (if task.position < P then 1 else 0) = P - 1 := by
    have h1 := hqperm.countP_eq (fun x => decide (x < P))
    rw [List.countP_cons, hcountAll] at h1
    simp only [decide_eq_true_eq] at h1
    by_cases hq : task.position < P
    · rw [if_pos hq] at h1
      rw [if_pos hq]
      omega
    · rw [if_neg hq] at h1
      rw [if_neg hq]
      omega
  have hcount2 : ((ts2.filter (fun t => t.columnId == ct)).map
      (fun t => t.position)).countP (fun x => decide (x < P))
      = X.countP (fun x => decide (x < P)) := by
    rw [hpermpos.countP_eq (fun x => decide (x < P)), List.countP_cons]
    have hPP : (decide (P < P)) = false := by simp
    rw [hPP]
    have hfun : ((fun x => decide (x < P)) ∘
        (fun x : Nat => if P ≤ x then x + 1 else x))
        = (fun x : Nat => decide (x < P)) := by
      funext x
      rw [Function.comp_apply]
      by_cases hx : P ≤ x
      · rw [if_pos hx]
        simp only [decide_eq_decide]
        omega
      · rw [if_neg hx]
    rw [List.countP_map, hfun]
    simp
  have hcntmain : (ts2.filter (fun t => t.columnId == ct)).countP
      (fun u => decide (u.position < P))
      + (if task.position < P then 1 else 0) = P - 1 := by
    rw [countP_pos_map (ts2.filter (fun t => t.columnId == ct))
      (fun x => decide (x < P))]
    rw [hcount2]
    exact hXcnt
  have hxmem : { task with columnId := ct, position := P } ∈ ts2 := by
    rw [hts2m, ← hshst_task]
    exact List.mem_map_of_mem _ htmem
  have hcomp := compaction_applyUps_pos ct ts2 hids2 hposNodup
    { task with columnId := ct, position := P } hxmem rfl
  have hfmoved : findTask S' taskId = some (applyUps ups (st (sh task))) := by
    rw [hfind taskId]
    have htask' : s.tasks.find? (fun v => v.id == taskId) = some task := htask
    rw [htask', Option.map_some']
  refine ⟨by rw [hok]; rfl, ?_, ?_⟩
  · rw [hoks, hfmoved, hshst_task, Option.map_some']
    rw [hups, hcomp]
    show some (1 + (ts2.filter (fun t => t.columnId == ct)).countP
        (fun u => decide (u.position < P)))
      = some (if P ≤ task.position then P else P - 1)
    by_cases hq : P ≤ task.position
    · rw [if_pos hq]
      rw [if_neg (by omega : ¬ task.position < P)] at hcntmain
      congr 1
      omega
    · rw [if_neg hq]
      rw [if_pos (by omega : task.position < P)] at hcntmain
      congr 1
      omega
  · intro t u htm hum htc huc htne hune hlt t' u' ht' hu'
    rw [hoks, hfind t.id, find?_id_of_mem hids htm, Option.map_some'] at ht'
    rw [hoks, hfind u.id, find?_id_of_mem hids hum, Option.map_some'] at hu'
    injection ht' with ht'
    injection hu' with hu'
    subst ht'
    subst hu'
    have hstsh_t : st (sh t) = sh t :=
      hst_ne (sh t) (by rw [hshid]; exact htne)
    have hstsh_u : st (sh u) = sh u :=
      hst_ne (sh u) (by rw [hshid]; exact hune)
    have hmemt : sh t ∈ ts2 := by
      rw [hts2m, ← hstsh_t]
      exact List.mem_map_of_mem _ htm
    have hmemu : sh u ∈ ts2 := by
      rw [hts2m, ← hstsh_u]
      exact List.mem_map_of_mem _ hum
    have hcolt : (sh t).columnId = ct := by rw [hshcol]; exact htc
    have hcolu : (sh u).columnId = ct := by rw [hshcol]; exact huc
    have hcompt := compaction_applyUps_pos ct ts2 hids2 hposNodup
      (sh t) hmemt hcolt
    have hcompu := compaction_applyUps_pos ct ts2 hids2 hposNodup
      (sh u) hmemu hcolu
    have hAB : (sh t).position < (sh u).position := by
      rw [hshpos t htc, hshpos u huc]
      by_cases h1 : P ≤ t.position <;> by_cases h2 : P ≤ u.position
      · rw [if_pos h1, if_pos h2]; omega
      · rw [if_pos h1, if_neg h2]; omega
      · rw [if_neg h1, if_pos h2]; omega
      · rw [if_neg h1, if_neg h2]; omega
    have hAmem : (sh t).position ∈ (ts2.filter (fun v => v.columnId == ct)).map
        (fun v => v.position) := by
      apply List.mem_map_of_mem
      exact List.mem_filter.mpr ⟨hmemt, by simp [hcolt]⟩
    have hstrict := countP_lt_strict
      ((ts2.filter (fun v => v.columnId == ct)).map (fun v => v.position))
      (sh t).position (sh u).position hAB hAmem
    have hcntlt : (ts2.filter (fun v => v.columnId == ct)).countP
        (fun v => decide (v.position < (sh t).position))
        < (ts2.filter (fun v => v.columnId == ct)).countP
          (fun v => decide (v.position < (sh u).position)) := by
      rw [countP_pos_map (ts2.filter (fun v => v.columnId == ct))
        (fun x => decide (x < (sh t).position))]
      rw [countP_pos_map (ts2.filter (fun v => v.columnId == ct))
        (fun x => decide (x < (sh u).position))]
      exact hstrict
    rw [hstsh_t, hstsh_u, hups, hcompt, hcompu]
    exact Nat.add_lt_add_left hcntlt 1

/-- C2 witness: in the fixture, moving task 31 (position 2 of column 10, which
holds two tasks) to position 1 of the same column succeeds and the task indeed
ends at position 1 (its current position 2 is ≥ P = 1, the case where the
claimed final position is attained). -/
theorem moveTask_same_column_position_witness :
    (moveTask s0 ctxOwner 31 10 1).isOk = true ∧
    (findTask (okState (moveTask s0 ctxOwner 31 10 1) s0) 31).map
      (fun t => t.position) = some 1 := by
  obtain ⟨h1, h2, -⟩ := moveTask_same_column_position s0 ctxOwner 31 1
    ⟨31, 10, "B", none, none, TaskStatus.TODO, 1, none, 2⟩
    ⟨10, 100, "To Do", 1⟩
    (by decide) rfl rfl rfl (by decide) (by decide)
  exact ⟨h1, h2.trans (by decide)⟩

/-- C2 counterexample: moving task 30 (position 1 of column 10, which holds
positions {1, 2}) to position 2 of the same column is accepted, but the task
ends at position 1 — not at the requested position 2: the shift-in runs
against the pre-removal snapshot (positions ≥ 2 move right, the moved task is
written at 2), and the compaction then pulls it back to 1 when it closes the
hole at the old position. -/
theorem moveTask_same_column_misplaces_counterexample :
    (moveTask s0 ctxOwner 30 10 2).isOk = true ∧
    (findTask (okState (moveTask s0 ctxOwner 30 10 2) s0) 30).map
      (fun t => t.position) = some 1 ∧
    (1 : Nat) ≠ 2 :=
  ⟨rfl, rfl, by decide⟩

end Kanban
